import Mathlib

/-!
Verification development for the remote-helper engine of a nostr/git bridge.

The Rust sources embedded here are:
* `src/client.rs` — event cache access, repo-ref materialisation, fetch orchestration;
* `src/bin/git_remote_nostr/utils.rs` — remote-helper utilities (fetch batches,
  open-proposal listing, transport selection, error classification);
* `src/sub_commands/push.rs` — the proposal push path.

Events, ids and public keys are modelled as plain strings; timestamps and kinds as
naturals.  Helpers that live in repository modules not provided with the sources
(`sub_commands::list`, `sub_commands::send`, `git`, `repo_ref`) are modelled from the
specification; each such definition says so in its doc comment.
-/

set_option autoImplicit false

namespace Ngit

/-- Signed event record: `{id, author (pubkey), kind, created_at, tags}`.  The fields the
embedded functions consume; content and signature are irrelevant to them. -/
structure NEvent where
  id : String
  pubkey : String
  created_at : Nat
  kind : Nat
  tags : List (List String)
  deriving DecidableEq, Repr

/-- RepoAnnouncement kind (`REPO_REF_KIND` in `repo_ref.rs`, nostr kind 30617). -/
def REPO_REF_KIND : Nat := 30617

/-- Patch kind (`PATCH_KIND` in `sub_commands/send.rs`, nostr kind 1617). -/
def PATCH_KIND : Nat := 1617

/-- Metadata (profile) kind, nostr kind 0. -/
def METADATA_KIND : Nat := 0

/-- The open status kind (`Kind::GitStatusOpen`, nostr kind 1630). -/
def GIT_STATUS_OPEN : Nat := 1630

/-- Modelled from the spec: the proposal status kinds open / applied / closed / draft
(§3 "Status: open / closed / merged / applied"); `status_kinds` lives in
`sub_commands::list`, which is not among the provided sources. -/
def status_kinds : List Nat := [1630, 1631, 1632, 1633]

/-- First tag whose name (element 0) is `name`, returning its value (element 1).
Modelled from the spec: `tag_value` lives in `sub_commands::list`, not among the
provided sources; spec §3 describes tags as `name` / `value` vectors. -/
def tag_value (e : NEvent) (name : String) : Option String :=
  match e.tags.find? (fun t => t.head? == some name) with
  | some t => t.get? 1
  | none => none

/-- All values of `e` tags (`event.event_ids()` in the nostr library). -/
def event_ids (e : NEvent) : List String :=
  (e.tags.filter (fun t => t.head? == some "e")).filterMap (fun t => t.get? 1)

/-- The `d` tag value (`event.identifier()` in the nostr library). -/
def event_identifier (e : NEvent) : Option String :=
  tag_value e "d"

/-- The values after the name of the first tag called `name` (used for the
`maintainers`, `relays` and `clone` announcement tags). -/
def tag_tail_values (e : NEvent) (name : String) : List String :=
  match e.tags.find? (fun t => t.head? == some name) with
  | some t => t.tail
  | none => []

/-! ## Transport selector (`utils.rs`, claim C3) -/

/-- The transport protocols of `git::nostr_url::ServerProtocol`. -/
inductive ServerProtocol
  | ssh
  | http
  | https
  | unauthHttp
  | unauthHttps
  | ftp
  | filesystem
  deriving DecidableEq, Repr

/-- Embeds `get_read_protocols_to_try` (`utils.rs` lines 233–258).  A server URL is
represented by the protocol its scheme maps to (`server_url.protocol()`); the decoded
nostr URL by its optional forced protocol. -/
def get_read_protocols_to_try (server_protocol : ServerProtocol)
    (forced_protocol : Option ServerProtocol) : List ServerProtocol :=
  if server_protocol = ServerProtocol.filesystem then
    [ServerProtocol.filesystem]
  else
    match forced_protocol with
    | some p => [p]
    | none =>
      if server_protocol = ServerProtocol.http then
        [ServerProtocol.unauthHttp, ServerProtocol.ssh, ServerProtocol.http]
      else if server_protocol = ServerProtocol.ftp then
        [ServerProtocol.ftp, ServerProtocol.ssh]
      else
        [ServerProtocol.unauthHttps, ServerProtocol.ssh, ServerProtocol.https]

/-- Embeds `get_write_protocols_to_try` (`utils.rs` lines 261–284). -/
def get_write_protocols_to_try (server_protocol : ServerProtocol)
    (forced_protocol : Option ServerProtocol) : List ServerProtocol :=
  if server_protocol = ServerProtocol.filesystem then
    [ServerProtocol.filesystem]
  else
    match forced_protocol with
    | some p => [p]
    | none =>
      if server_protocol = ServerProtocol.http then
        [ServerProtocol.ssh, ServerProtocol.http]
      else if server_protocol = ServerProtocol.ftp then
        [ServerProtocol.ssh, ServerProtocol.ftp]
      else
        [ServerProtocol.ssh, ServerProtocol.https]

/-- The read column of the §4.7 table, read as an ordered case analysis (filesystem
first, then forced, then the scheme rows, "https (or other)" last). -/
def read_protocol_table (server_protocol : ServerProtocol)
    (forced_protocol : Option ServerProtocol) : List ServerProtocol :=
  if server_protocol = ServerProtocol.filesystem then
    [ServerProtocol.filesystem]
  else if let some p := forced_protocol then
    [p]
  else if server_protocol = ServerProtocol.http then
    [ServerProtocol.unauthHttp, ServerProtocol.ssh, ServerProtocol.http]
  else if server_protocol = ServerProtocol.ftp then
    [ServerProtocol.ftp, ServerProtocol.ssh]
  else
    [ServerProtocol.unauthHttps, ServerProtocol.ssh, ServerProtocol.https]

/-- The write column of the §4.7 table, read as an ordered case analysis. -/
def write_protocol_table (server_protocol : ServerProtocol)
    (forced_protocol : Option ServerProtocol) : List ServerProtocol :=
  if server_protocol = ServerProtocol.filesystem then
    [ServerProtocol.filesystem]
  else if let some p := forced_protocol then
    [p]
  else if server_protocol = ServerProtocol.http then
    [ServerProtocol.ssh, ServerProtocol.http]
  else if server_protocol = ServerProtocol.ftp then
    [ServerProtocol.ssh, ServerProtocol.ftp]
  else
    [ServerProtocol.ssh, ServerProtocol.https]

/-! ## Authentication-error classification (`utils.rs`, claim C4) -/

/-- Whether the character list `needle` occurs as a prefix of `haystack`. -/
def starts_with_chars : List Char → List Char → Bool
  | _, [] => true
  | [], _ :: _ => false
  | a :: as_, b :: bs => a == b && starts_with_chars as_ bs

/-- Whether the character list `needle` occurs contiguously inside `haystack`
(the semantics of Rust `str::contains` for plain substrings). -/
def chars_contain : List Char → List Char → Bool
  | [], needle => starts_with_chars [] needle
  | c :: rest, needle => starts_with_chars (c :: rest) needle || chars_contain rest needle

/-- Substring test on strings, used to embed `error_str.contains(s)`. -/
def string_contains (haystack needle : String) : Bool :=
  chars_contain haystack.toList needle.toList

/-- The substrings tested by `error_might_be_authentication_related`
(`utils.rs` lines 298–304). -/
def auth_error_substrings : List String :=
  [ "no ssh keys found"
  , "invalid or unknown remote ssh hostkey"
  , "all authentication attempts failed"
  , "Permission to"
  , "Repository not found" ]

/-- Embeds `error_might_be_authentication_related` (`utils.rs` lines 296–310): an
`anyhow::Error` is represented by its rendered message string. -/
def error_might_be_authentication_related (error_str : String) : Bool :=
  auth_error_substrings.any (fun s => string_contains error_str s)

/-- Embeds `fetch_or_list_error_is_not_authentication_failure` (`utils.rs` 287–289). -/
def fetch_or_list_error_is_not_authentication_failure (error_str : String) : Bool :=
  !error_might_be_authentication_related error_str

/-- Embeds `push_error_is_not_authentication_failure` (`utils.rs` 292–294). -/
def push_error_is_not_authentication_failure (error_str : String) : Bool :=
  !error_might_be_authentication_related error_str

/-- Modelled from the spec: the error taxonomy of §7.  The sources classify errors only
through message substrings; the structural kinds live in modules not provided. -/
inductive ErrorKind
  | AuthRequired
  | HostKeyMismatch
  | NoKeysAvailable
  | PermissionDenied
  | RepoNotVisible
  | TransportError
  | ConnectionTimeout
  | RelayError
  | OtherError
  deriving DecidableEq, Repr

/-- The authentication-related kinds of §7 (*AuthRelated*). -/
def is_auth_kind : ErrorKind → Bool
  | ErrorKind.AuthRequired => true
  | ErrorKind.HostKeyMismatch => true
  | ErrorKind.NoKeysAvailable => true
  | ErrorKind.PermissionDenied => true
  | ErrorKind.RepoNotVisible => true
  | _ => false

/-- Modelled from the spec: the characteristic message substring by which each
authentication-related kind is recognised when wrapped in a library error
(§4.7 "message-substring fallbacks are permitted for wrapped library errors";
the substrings themselves are the ones listed in `utils.rs`). -/
def auth_kind_substring : ErrorKind → Option String
  | ErrorKind.AuthRequired => some "all authentication attempts failed"
  | ErrorKind.HostKeyMismatch => some "invalid or unknown remote ssh hostkey"
  | ErrorKind.NoKeysAvailable => some "no ssh keys found"
  | ErrorKind.PermissionDenied => some "Permission to"
  | ErrorKind.RepoNotVisible => some "Repository not found"
  | _ => none

/-- An error as seen by the transport driver: a structural kind plus the rendered
message that the classification functions inspect. -/
structure TaggedError where
  kind : ErrorKind
  message : String

/-! ## Fetch batches (`utils.rs`, claim C9) -/

/-- Splits a character list on single spaces (the `line.split(' ')` step of
`read_line`). -/
def split_spaces : List Char → List (List Char)
  | [] => [[]]
  | c :: rest =>
    let r := split_spaces rest
    if c == ' ' then [] :: r
    else (c :: r.headD []) :: r.tail

/-- Embeds `read_line`'s tokenisation (`utils.rs` lines 82–93): split on spaces and
drop empty tokens.  Input lines are modelled without their trailing newline, which is
what `trim` removes. -/
def tokenize (line : String) : List String :=
  ((split_spaces line.toList).filter (fun t => t != [])).map (fun t => String.mk t)

/-- `HashMap::insert` on a string-keyed map modelled as an association list: the new
pair replaces any pair with the same key. -/
def hashmap_insert (m : List (String × String)) (k v : String) : List (String × String) :=
  (k, v) :: m.filter (fun p => p.1 != k)

/-- Lookup in the association-list model of `HashMap<String, String>`. -/
def hashmap_get (m : List (String × String)) (k : String) : Option String :=
  (m.find? (fun p => p.1 == k)).map (fun p => p.2)

/-- The read loop of `get_oids_from_fetch_batch` (`utils.rs` lines 66–77): stdin is the
list of remaining lines; end of input behaves like a blank line (`read_line` returns no
tokens for both). -/
def fetch_batch_loop (batch : List (String × String)) :
    List String → Except String (List (String × String))
  | [] => Except.ok batch
  | line :: rest =>
    match tokenize line with
    | ["fetch", oid, refstr] => fetch_batch_loop (hashmap_insert batch refstr oid) rest
    | [] => Except.ok batch
    | _ => Except.error "after a `fetch` command we are only expecting another fetch or an empty line"

/-- Embeds `get_oids_from_fetch_batch` (`utils.rs` lines 58–79). -/
def get_oids_from_fetch_batch (lines : List String) (initial_oid initial_refstr : String) :
    Except String (List (String × String)) :=
  fetch_batch_loop (hashmap_insert [] initial_refstr initial_oid) lines

/-- The (refstr, oid) pairs of the fetch lines before the first blank line, or `none`
if a non-fetch, non-blank line occurs first. -/
def fetch_lines_before_blank : List String → Option (List (String × String))
  | [] => some []
  | line :: rest =>
    match tokenize line with
    | ["fetch", oid, refstr] =>
      (fetch_lines_before_blank rest).map (fun l => (refstr, oid) :: l)
    | [] => some []
    | _ => none

/-- The oid of the last pair naming `r`, if any. -/
def last_oid_for (pairs : List (String × String)) (r : String) : Option String :=
  (pairs.reverse.find? (fun p => p.1 == r)).map (fun p => p.2)

/-! ## Cache queries and sorting -/

/-- The stable address `(kind, public key, identifier)` of a replaceable event
(`nostr::nips::nip01::Coordinate`; the advisory relay list is always empty where the
embedded code builds one). -/
structure Coordinate where
  kind : Nat
  public_key : String
  identifier : String
  deriving DecidableEq, Repr

/-- The coordinate rendering used inside `a` tags (`kind:pubkey:identifier`). -/
def coordinate_string (c : Coordinate) : String :=
  toString c.kind ++ ":" ++ c.public_key ++ ":" ++ c.identifier

/-- Stable insertion into a list ascending in `created_at` (an element is placed before
the first element with a `created_at` not smaller than its own). -/
def insert_by_created_at (e : NEvent) : List NEvent → List NEvent
  | [] => [e]
  | x :: xs =>
    if e.created_at ≤ x.created_at then e :: x :: xs
    else x :: insert_by_created_at e xs

/-- Stable sort by ascending `created_at`; models both the ascending order of cache
queries (`Order::Asc`, spec §4.1) and Rust's stable `sort_by_key`. -/
def sort_by_created_at : List NEvent → List NEvent
  | [] => []
  | x :: xs => insert_by_created_at x (sort_by_created_at xs)

/-- The repo-announcement filter built by `get_filter_repo_events` (`client.rs` lines
1011–1026): kind `REPO_REF_KIND`, identifiers and authors drawn from the coordinates. -/
structure RepoFilter where
  identifiers : List String
  authors : List String
  deriving Repr

/-- Embeds `get_filter_repo_events` (`client.rs` lines 1011–1026). -/
def get_filter_repo_events (repo_coordinates : List Coordinate) : RepoFilter :=
  { identifiers := repo_coordinates.map Coordinate.identifier
  , authors := repo_coordinates.map Coordinate.public_key }

/-- Whether an event matches a repo-announcement filter (kind, `d` tag among the
identifiers, author among the authors). -/
def repo_filter_matches (f : RepoFilter) (e : NEvent) : Bool :=
  e.kind == REPO_REF_KIND &&
  (match event_identifier e with
   | some d => f.identifiers.contains d
   | none => false) &&
  f.authors.contains e.pubkey

/-- A cache query for repo-announcement events: matching events in ascending
`created_at` order (spec §4.1, `query(filters) -> events in ascending created_at`). -/
def query_repo_events (cache : List NEvent) (f : RepoFilter) : List NEvent :=
  sort_by_created_at (cache.filter (repo_filter_matches f))

/-! ## Repo-ref materialisation (`client.rs`, claims C1 and C6) -/

/-- The base fields `RepoRef::try_from` extracts from one announcement event. -/
structure ModelRepoRef where
  identifier : String
  maintainers : List String
  relays : List String
  git_servers : List String
  deriving DecidableEq, Repr

/-- Modelled from the spec: `RepoRef::try_from(event)` parses a RepoAnnouncement
(§3: it carries an identifier, a maintainer set, relay URLs and clone URLs; the
`repo_ref` module is not among the provided sources).  It fails unless the event has
the RepoAnnouncement kind and a `d` tag. -/
def repo_ref_try_from (e : NEvent) : Option ModelRepoRef :=
  if e.kind == REPO_REF_KIND then
    match event_identifier e with
    | some d => some
      { identifier := d
      , maintainers := tag_tail_values e "maintainers"
      , relays := tag_tail_values e "relays"
      , git_servers := tag_tail_values e "clone" }
    | none => none
  else none

/-- The mutable state of the discovery loop in `get_repo_ref_from_cache`
(`client.rs` lines 699–727): the maintainer set, the `new_coordinate` flag and the
accumulated `repo_events` vector. -/
structure RepoRefLoopState where
  maintainers : List String
  new_coordinate : Bool
  repo_events : List NEvent
  deriving DecidableEq, Repr

/-- One `maintainers.insert(m)` step: sets `new_coordinate` when `m` is new. -/
def add_maintainer (st : RepoRefLoopState) (m : String) : RepoRefLoopState :=
  if st.maintainers.contains m then st
  else { st with maintainers := st.maintainers ++ [m], new_coordinate := true }

/-- The body of `for e in events` in the loop (`client.rs` lines 714–723). -/
def process_repo_event (st : RepoRefLoopState) (e : NEvent) : RepoRefLoopState :=
  match repo_ref_try_from e with
  | some rr =>
    let st := rr.maintainers.foldl add_maintainer st
    { st with repo_events := st.repo_events ++ [e] }
  | none => st

/-- One iteration of the `loop` in `get_repo_ref_from_cache` (`client.rs` lines
706–723): query both caches with the filter built from the *seed* coordinates —
the filter is rebuilt from `repo_coordinates` on every pass — and fold the events
into the state (global-cache results come first, as in the source). -/
def repo_ref_loop_iteration (global_cache local_cache : List NEvent)
    (repo_coordinates : List Coordinate) (st : RepoRefLoopState) : RepoRefLoopState :=
  let f := get_filter_repo_events repo_coordinates
  let events := query_repo_events global_cache f ++ query_repo_events local_cache f
  events.foldl process_repo_event st

/-- The `loop { ...; if !new_coordinate { break } }` of `client.rs` lines 706–727,
instrumented with fuel: `none` means the break condition was still unmet after `fuel`
iterations. -/
def repo_ref_loop (global_cache local_cache : List NEvent)
    (repo_coordinates : List Coordinate) : Nat → RepoRefLoopState → Option RepoRefLoopState
  | 0, _ => none
  | fuel + 1, st =>
    let st := repo_ref_loop_iteration global_cache local_cache repo_coordinates st
    if st.new_coordinate then
      repo_ref_loop global_cache local_cache repo_coordinates fuel st
    else some st

/-- The state before the loop: maintainers seeded from the coordinates,
`new_coordinate = false`, no events (`client.rs` lines 699–705). -/
def repo_ref_initial_state (repo_coordinates : List Coordinate) : RepoRefLoopState :=
  { maintainers :=
      repo_coordinates.foldl
        (fun l c => if l.contains c.public_key then l else l ++ [c.public_key]) []
  , new_coordinate := false
  , repo_events := [] }

/-- The value `get_repo_ref_from_cache` finally assembles: base fields from one chosen
announcement, the maintainer union, and the per-maintainer announcement map. -/
structure ModelRepoRefFull where
  base : ModelRepoRef
  maintainers : List String
  events : List (Coordinate × NEvent)
  deriving DecidableEq, Repr

/-- Outcome of `get_repo_ref_from_cache`: loop never broke (`outOfFuel`), an error
(`no repo events at specified coordinates` or a failed `try_from`), or a repo ref. -/
inductive RepoRefOutcome
  | outOfFuel
  | error
  | ok (r : ModelRepoRefFull)
  deriving DecidableEq, Repr

/-- Embeds `get_repo_ref_from_cache` (`client.rs` lines 695–758): run the discovery
loop, sort `repo_events` ascending by `created_at`, build the base `RepoRef` from the
*first* element of the sorted vector, then attach the full maintainer set and the
first event found per maintainer. -/
def get_repo_ref_from_cache (fuel : Nat) (global_cache local_cache : List NEvent)
    (repo_coordinates : List Coordinate) : RepoRefOutcome :=
  match repo_ref_loop global_cache local_cache repo_coordinates fuel
      (repo_ref_initial_state repo_coordinates) with
  | none => RepoRefOutcome.outOfFuel
  | some st =>
    let sorted := sort_by_created_at st.repo_events
    match sorted.head? with
    | none => RepoRefOutcome.error
    | some e0 =>
      match repo_ref_try_from e0 with
      | none => RepoRefOutcome.error
      | some base =>
        let events := st.maintainers.filterMap (fun m =>
          (sorted.find? (fun e => e.pubkey == m)).map (fun e =>
            ({ kind := e.kind
             , public_key := e.pubkey
             , identifier := (event_identifier e).getD "" } , e)))
        RepoRefOutcome.ok { base := base, maintainers := st.maintainers, events := events }

/-- The relays of an `ok` outcome. -/
def repo_ref_outcome_relays : RepoRefOutcome → Option (List String)
  | RepoRefOutcome.ok r => some r.base.relays
  | _ => none

/-- The VCS server URLs of an `ok` outcome. -/
def repo_ref_outcome_git_servers : RepoRefOutcome → Option (List String)
  | RepoRefOutcome.ok r => some r.base.git_servers
  | _ => none

/-! ## Processing fetched events (`client.rs`, claim C7) -/

/-- Insert into a set modelled as a duplicate-free list. -/
def set_insert {α : Type} [BEq α] (l : List α) (x : α) : List α :=
  if l.contains x then l else l ++ [x]

/-- The fields of `FetchRequest` consumed by `process_fetched_event`
(`client.rs` lines 1102–1109). -/
structure FetchRequestM where
  repo_coordinates : List (Coordinate × Option Nat)
  proposals : List String
  contributor_profiles : List String
  existing_events : List String
  deriving Repr

/-- The fields of `FetchReport` written by `process_fetched_event`
(`client.rs` lines 1028–1038). -/
structure FetchReportM where
  repo_coordinates : List Coordinate
  updated_repo_announcements : List (Coordinate × Nat)
  proposals : List String
  commits : List String
  statuses : List String
  contributor_profiles : List String
  deriving DecidableEq, Repr

/-- The state threaded through `process_fetched_event`: the fresh sets and report it
mutates, plus the ids it saved into each cache (its observable cache effects). -/
structure ProcessState where
  fresh_coordinates : List Coordinate
  fresh_proposal_roots : List String
  report : FetchReportM
  local_cache_saves : List String
  global_cache_saves : List String
  deriving DecidableEq, Repr

/-- The all-empty process state. -/
def initial_process_state : ProcessState :=
  { fresh_coordinates := []
  , fresh_proposal_roots := []
  , report :=
    { repo_coordinates := []
    , updated_repo_announcements := []
    , proposals := []
    , commits := []
    , statuses := []
    , contributor_profiles := [] }
  , local_cache_saves := []
  , global_cache_saves := [] }

/-- Modelled from the spec: `event_is_patch_set_root` (in `sub_commands::send`, not
among the provided sources) recognises the root event of a proposal — a Patch-kind
event marked as a root (§3 *PatchSetRoot*). -/
def event_is_patch_set_root (e : NEvent) : Bool :=
  e.kind == PATCH_KIND && e.tags.contains ["t", "root"]

/-- Modelled from the spec: `event_is_revision_root` (in `git_events`, not among the
provided sources) recognises a PatchSetRoot that itself points at an earlier root
(§4.5, §9 force-push semantics), marked as a revision root. -/
def event_is_revision_root (e : NEvent) : Bool :=
  e.kind == PATCH_KIND && e.tags.contains ["t", "revision-root"]

/-- Embeds `process_fetched_event` (`client.rs` lines 853–927), with cache writes
recorded in the state instead of performed.  The branch order is the source's:
repo announcements first, then patch-set roots, then events that do *not* reference a
known proposal root, and only then — inside the final `else` — the Metadata branch. -/
def process_fetched_event (event : NEvent) (request : FetchRequestM)
    (st : ProcessState) : ProcessState :=
  if request.existing_events.contains event.id then st
  else
    let st := { st with local_cache_saves := st.local_cache_saves ++ [event.id] }
    if event.kind == REPO_REF_KIND then
      let st := { st with global_cache_saves := st.global_cache_saves ++ [event.id] }
      let d := (event_identifier event).getD ""
      let new_coordinate := !(request.repo_coordinates.any (fun ct =>
        ct.1.identifier == d && ct.1.public_key == event.pubkey))
      let update_to_existing := !new_coordinate &&
        request.repo_coordinates.any (fun ct =>
          ct.1.identifier == d && ct.1.public_key == event.pubkey &&
          (match ct.2 with
           | some t => decide (t < event.created_at)
           | none => false))
      let c : Coordinate :=
        { kind := event.kind, public_key := event.pubkey, identifier := d }
      let st :=
        if new_coordinate || update_to_existing then
          let st :=
            if new_coordinate then
              { st with
                fresh_coordinates := set_insert st.fresh_coordinates c
                report :=
                  { st.report with repo_coordinates := st.report.repo_coordinates ++ [c] } }
            else st
          if update_to_existing then
            { st with report :=
              { st.report with updated_repo_announcements :=
                  st.report.updated_repo_announcements ++ [(c, event.created_at)] } }
          else st
        else st
      match repo_ref_try_from event with
      | some rr =>
        rr.maintainers.foldl (fun st m =>
          let mc : Coordinate :=
            { kind := event.kind, public_key := m, identifier := rr.identifier }
          if request.repo_coordinates.any (fun ct =>
              ct.1.identifier == rr.identifier && m == ct.1.public_key) then st
          else
            { st with fresh_coordinates := set_insert st.fresh_coordinates mc }) st
      | none => st
    else if event_is_patch_set_root event then
      let report := { st.report with proposals := set_insert st.report.proposals event.id }
      { st with
        fresh_proposal_roots := set_insert st.fresh_proposal_roots event.id
        report := report }
    else if !((event_ids event).any (fun i => st.report.proposals.contains i)) then
      if event.kind == PATCH_KIND then
        { st with report := { st.report with commits := set_insert st.report.commits event.id } }
      else if status_kinds.contains event.kind then
        { st with report := { st.report with statuses := set_insert st.report.statuses event.id } }
      else st
    else if event.kind == METADATA_KIND then
      let profiles := set_insert st.report.contributor_profiles event.pubkey
      { st with
        report := { st.report with contributor_profiles := profiles }
        global_cache_saves := st.global_cache_saves ++ [event.id] }
    else st

/-! ## Open-proposal listing (`utils.rs`, claims C5, C8, C10) -/

/-- Whether the event carries an `a` tag naming one of the repo coordinates. -/
def proposal_coordinates_match (coords : List Coordinate) (e : NEvent) : Bool :=
  e.tags.any (fun t => t.head? == some "a" &&
    (match t.get? 1 with
     | some v => (coords.map coordinate_string).contains v
     | none => false))

/-- Modelled from the spec: `get_proposals_and_revisions_from_cache` (in
`sub_commands::list`, not among the provided sources) fetches all PatchSetRoot events
— revision roots included — whose repo coordinates match (§4.5), in the cache's
ascending `created_at` order. -/
def get_proposals_and_revisions_from_cache (cache : List NEvent)
    (coords : List Coordinate) : List NEvent :=
  sort_by_created_at (cache.filter (fun e =>
    (event_is_patch_set_root e || event_is_revision_root e) &&
    proposal_coordinates_match coords e))

/-- The status cache filter of `get_open_proposals` (`utils.rs` lines 109–117):
status kinds, referencing (`e` tag) any of the proposal ids. -/
def status_filter_matches (proposal_ids : List String) (e : NEvent) : Bool :=
  status_kinds.contains e.kind &&
  e.tags.any (fun t => t.head? == some "e" &&
    (match t.get? 1 with
     | some v => proposal_ids.contains v
     | none => false))

/-- The `e.tags().iter().any(|t| t.as_vec()[1].eq(&proposal.id...))` step of
`utils.rs` lines 129–131: `none` models the out-of-bounds panic on a tag with fewer
than two elements; evaluation is in order with short-circuit on the first match, as
in Rust's `Iterator::any`. -/
def tag_check_any (pid : String) : List (List String) → Option Bool
  | [] => some false
  | t :: rest =>
    match t.get? 1 with
    | none => none
    | some v => if v == pid then some true else tag_check_any pid rest

/-- The `statuses.iter().filter(...).collect()` step of `utils.rs` lines 125–134:
the predicate is evaluated eagerly on every status event, so `none` (panic) propagates
from any of them. -/
def filter_statuses_for (pid : String) : List NEvent → Option (List NEvent)
  | [] => some []
  | e :: rest =>
    match (if status_kinds.contains e.kind then tag_check_any pid e.tags else some false) with
    | none => none
    | some b =>
      match filter_statuses_for pid rest with
      | none => none
      | some r => some (if b then e :: r else r)

/-- The status of one proposal (`utils.rs` lines 125–139): the kind of the first
matching event of the descending status list, defaulting to `GitStatusOpen`. -/
def proposal_status (statuses_desc : List NEvent) (pid : String) : Option Nat :=
  match filter_statuses_for pid statuses_desc with
  | none => none
  | some l => some (match l.head? with
    | some e => e.kind
    | none => GIT_STATUS_OPEN)

/-- Modelled from the spec: `get_all_proposal_patch_events_from_cache` (in
`sub_commands::list`, not among the provided sources) fetches the Patch events of one
proposal — the root itself plus patches referencing the root id (§3: a Patch carries a
tag referencing the PatchSetRoot for non-root patches). -/
def get_all_proposal_patch_events_from_cache (cache : List NEvent)
    (root_id : String) : List NEvent :=
  sort_by_created_at (cache.filter (fun e =>
    e.kind == PATCH_KIND && (e.id == root_id || (event_ids e).contains root_id)))

/-- The `commit` tag of a patch (`get_commit_id_from_patch` in `sub_commands::list`,
modelled from the spec). -/
def get_commit_id_from_patch (e : NEvent) : Option String :=
  tag_value e "commit"

/-- The `parent-commit` tag of a patch. -/
def patch_parent_commit (e : NEvent) : Option String :=
  tag_value e "parent-commit"

/-- Modelled from the spec: the tip of a patch set is the Patch with no descendant
Patch referencing it via `parent-commit` (§4.5). -/
def find_tip_patch (patches : List NEvent) : Option NEvent :=
  patches.find? (fun p =>
    match get_commit_id_from_patch p with
    | some c => !(patches.any (fun q => patch_parent_commit q == some c))
    | none => false)

/-- Modelled from the spec: walk `parent-commit` links backward from the tip (§4.5);
`none` on inconsistency (missing tag, or a cycle exhausting the fuel). -/
def walk_chain (patches : List NEvent) : Nat → NEvent → Option (List NEvent)
  | 0, _ => none
  | fuel + 1, cur =>
    match patch_parent_commit cur with
    | none => none
    | some parent =>
      match patches.find? (fun q => get_commit_id_from_patch q == some parent) with
      | none => some [cur]
      | some q =>
        match walk_chain patches fuel q with
        | none => none
        | some rest => some (cur :: rest)

/-- Modelled from the spec: `get_most_recent_patch_with_ancestors` (in `git_events` /
`sub_commands::list`, not among the provided sources) reconstructs the linear patch
chain, tip first, walking `parent-commit` links backward; it fails on inconsistency
(§4.5, §7 *ProposalInconsistent*). -/
def get_most_recent_patch_with_ancestors (patches : List NEvent) : Option (List NEvent) :=
  match find_tip_patch patches with
  | none => none
  | some tip => walk_chain patches patches.length tip

/-- The `for proposal in proposals` loop of `get_open_proposals` (`utils.rs` lines
124–153), building the map as an association list in proposal order; `none` models a
panic in the status-matching step. -/
def open_proposals_loop (cache : List NEvent) (statuses_desc : List NEvent) :
    List NEvent → Option (List (String × NEvent × List NEvent))
  | [] => some []
  | p :: rest =>
    match proposal_status statuses_desc p.id with
    | none => none
    | some k =>
      let entry :=
        if k == GIT_STATUS_OPEN then
          match get_most_recent_patch_with_ancestors
              (get_all_proposal_patch_events_from_cache cache p.id) with
          | some chain => some (p.id, p, chain)
          | none => none
        else none
      match open_proposals_loop cache statuses_desc rest with
      | none => none
      | some m =>
        some (match entry with
          | some en => en :: m
          | none => m)

/-- Embeds `get_open_proposals` (`utils.rs` lines 95–155): matching roots minus
revision roots, statuses sorted by `created_at` and reversed, then the per-proposal
loop; `none` models a panic in the status-matching step. -/
def get_open_proposals (cache : List NEvent) (coords : List Coordinate) :
    Option (List (String × NEvent × List NEvent)) :=
  let proposals := (get_proposals_and_revisions_from_cache cache coords).filter
    (fun e => !event_is_revision_root e)
  let statuses_desc :=
    (sort_by_created_at (cache.filter (status_filter_matches (proposals.map NEvent.id)))).reverse
  open_proposals_loop cache statuses_desc proposals

/-- The chain-assembly stage of the push path (`push.rs` lines 80–82): a chain that
cannot be assembled surfaces as an error that aborts the push. -/
def push_proposal_chain (commit_events : List NEvent) : Except String (List NEvent) :=
  match get_most_recent_patch_with_ancestors commit_events with
  | some chain => Except.ok chain
  | none => Except.error "cannot get most recent patch for proposal"

/-! ## Claim-side predicates for the listing (claim C5) -/

/-- The element of the list with the largest `created_at` (later elements win ties). -/
def max_by_created_at : List NEvent → Option NEvent
  | [] => none
  | e :: rest =>
    match max_by_created_at rest with
    | none => some e
    | some m => some (if m.created_at < e.created_at then e else m)

/-- Whether a tag's value slot (element 1) holds `pid`. -/
def tag_value_matches (pid : String) (t : List String) : Bool :=
  match t.get? 1 with
  | some v => v == pid
  | none => false

/-- A status-kind event targets the proposal with root id `pid`: some tag's value slot
holds `pid` (this is the membership test the source applies, `utils.rs` line 131). -/
def status_targets (pid : String) (e : NEvent) : Bool :=
  status_kinds.contains e.kind && e.tags.any (tag_value_matches pid)

/-- Claim-side condition (c) of C5: the proposal has no Status event targeting it, or
its latest Status by `created_at` is Open. -/
def latest_status_open (cache : List NEvent) (pid : String) : Bool :=
  match max_by_created_at (cache.filter (status_targets pid)) with
  | none => true
  | some e => e.kind == GIT_STATUS_OPEN

/-- Consecutive chain elements are linked: each element's `parent-commit` is the
`commit` of the next (spec P4). -/
def chain_linked : List NEvent → Bool
  | [] => true
  | [_] => true
  | a :: b :: rest =>
    patch_parent_commit a == get_commit_id_from_patch b && chain_linked (b :: rest)

/-- Every tag of every status-kind event is a well-formed `e` reference (at least two
elements, name `e`).  Spec §3: a Status is "tagged with the proposal root id". -/
def status_tags_wellformed (cache : List NEvent) : Bool :=
  cache.all (fun e =>
    !status_kinds.contains e.kind ||
    e.tags.all (fun t => decide (2 ≤ t.length) && t.head? == some "e"))

/-- Every tag of every status-kind event has at least two elements — the precondition
under which the status-matching step cannot hit its out-of-bounds index. -/
def status_tag_lengths_ok (cache : List NEvent) : Bool :=
  cache.all (fun e =>
    !status_kinds.contains e.kind || e.tags.all (fun t => decide (2 ≤ t.length)))

/-- No two status-kind events of the cache share a `created_at` (makes "latest by
`created_at`" unambiguous). -/
def distinct_status_created_at (cache : List NEvent) : Bool :=
  go (cache.filter (fun e => status_kinds.contains e.kind))
where
  go : List NEvent → Bool
    | [] => true
    | e :: rest => rest.all (fun x => x.created_at != e.created_at) && go rest

/-! ## Push classification (`push.rs`, claim C2) -/

/-- Modelled from the spec: a commit content-address is 40 hexadecimal characters
(`str_to_sha1` lives in the `git` module, not among the provided sources; §7 calls a
non-SHA1 tag value an inconsistency). -/
def is_sha1_string (s : String) : Bool :=
  s.length == 40 && s.toList.all (fun c => "0123456789abcdef".toList.contains c)

/-- `str_to_sha1`: validate and return the commit id. -/
def str_to_sha1 (s : String) : Option String :=
  if is_sha1_string s then some s else none

/-- The tip commit of the chain: `commit` tag of the first (most recent) patch,
validated as a SHA1 (`push.rs` lines 85–93). -/
def chain_tip_commit (chain : List NEvent) : Option String :=
  match chain.head? with
  | none => none
  | some p =>
    match get_commit_id_from_patch p with
    | none => none
    | some c => str_to_sha1 c

/-- The proposal base: `parent-commit` tag of the last (oldest) patch, validated as a
SHA1 (`push.rs` lines 95–104). -/
def chain_base_parent (chain : List NEvent) : Option String :=
  match chain.getLast? with
  | none => none
  | some p =>
    match patch_parent_commit p with
    | none => none
    | some c => str_to_sha1 c

/-- The `any` test of `push.rs` lines 128–131: some patch's `parent-commit` equals the
branch tip (a missing tag reads as the empty string, as `unwrap_or_default` does). -/
def chain_has_parent_eq (branch_tip : String) (chain : List NEvent) : Bool :=
  chain.any (fun e => (patch_parent_commit e).getD "" == branch_tip)

/-- The outcomes a (non-force) proposal push can end in (§4.5). -/
inductive PushOutcome
  | UpToDate
  | LocalBehindProposal
  | LocalDiverged (behind : Nat)
  | AmendmentsRequireForce
  | RebaseRequiresForce
  | PublishPatches (ahead : List String)
  deriving DecidableEq, Repr

/-- Embeds the classification of `push.rs` lines 85–155 (force flag off).  The git
queries are inputs: `ahead_behind` is `get_commits_ahead_behind(tip, branch_tip)`
(`none` = no shared ancestor), `base_is_ancestor` is
`ancestor_of(proposal_base, branch_tip)`.  `none` overall models the early bails on a
malformed chain (lines 85–104). -/
def push_update (branch_tip : String) (chain : List NEvent)
    (ahead_behind : Option (List String × List String))
    (base_is_ancestor : Bool) : Option PushOutcome :=
  match chain_tip_commit chain, chain_base_parent chain with
  | some tip, some _ =>
    some (if tip == branch_tip then PushOutcome.UpToDate
      else if chain_has_parent_eq branch_tip chain then PushOutcome.LocalBehindProposal
      else
        match ahead_behind with
        | none =>
          if base_is_ancestor then PushOutcome.AmendmentsRequireForce
          else PushOutcome.RebaseRequiresForce
        | some (ahead, behind) =>
          if !behind.isEmpty then PushOutcome.LocalDiverged behind.length
          else PushOutcome.PublishPatches ahead)
  | _, _ => none

/-! ## Concrete scenarios used by the claim theorems -/

/-- Seed coordinate set `{(RepoAnnouncement, maintainer-x, demo)}`. -/
def c1_seed : List Coordinate :=
  [{ kind := REPO_REF_KIND, public_key := "maintainer-x", identifier := "demo" }]

/-- A local cache holding one announcement by the seed author that names a maintainer
outside the seed set. -/
def c1_local : List NEvent :=
  [{ id := "a1", pubkey := "maintainer-x", created_at := 1, kind := REPO_REF_KIND,
     tags := [["d", "demo"], ["maintainers", "maintainer-x", "maintainer-y"]] }]

/-- Seed coordinate set for the superseding scenario. -/
def c6_seed : List Coordinate :=
  [{ kind := REPO_REF_KIND, public_key := "maintainer-x", identifier := "demo" }]

/-- Local cache: the older announcement (created_at 1) of the pair. -/
def c6_local : List NEvent :=
  [{ id := "old-event", pubkey := "maintainer-x", created_at := 1, kind := REPO_REF_KIND,
     tags := [["d", "demo"], ["maintainers", "maintainer-x"],
              ["relays", "wss-relay.old.example"], ["clone", "https-git.old.example"]] }]

/-- Global cache: the newer announcement (created_at 2) by the same author for the
same identifier, with different relay and server lists. -/
def c6_global : List NEvent :=
  [{ id := "new-event", pubkey := "maintainer-x", created_at := 2, kind := REPO_REF_KIND,
     tags := [["d", "demo"], ["maintainers", "maintainer-x"],
              ["relays", "wss-relay.new.example"], ["clone", "https-git.new.example"]] }]

/-- A fetched Metadata (kind 0) profile event with no tags. -/
def c7_event : NEvent :=
  { id := "meta1", pubkey := "contributor-z", created_at := 10, kind := METADATA_KIND, tags := [] }

/-- A fetch request that has never seen `c7_event` (it is not among the existing
events). -/
def c7_request : FetchRequestM :=
  { repo_coordinates := [], proposals := [], contributor_profiles := [], existing_events := [] }

/-- The repo coordinate of the listing scenarios. -/
def c5_coord : Coordinate :=
  { kind := REPO_REF_KIND, public_key := "alice", identifier := "demo" }

/-- A proposal root: PatchSetRoot carrying the matching `a` coordinate tag and the
first patch (`commit c1`, `parent-commit c0`). -/
def c5_root : NEvent :=
  { id := "root1", pubkey := "alice", created_at := 1, kind := PATCH_KIND,
    tags := [["t", "root"], ["a", "30617:alice:demo"], ["commit", "c1"], ["parent-commit", "c0"]] }

/-- The second patch of the proposal (`commit c2` on top of `c1`). -/
def c5_patch : NEvent :=
  { id := "patch2", pubkey := "alice", created_at := 3, kind := PATCH_KIND,
    tags := [["e", "root1"], ["commit", "c2"], ["parent-commit", "c1"]] }

/-- A Status event (closed, kind 1632) referencing the root whose *second* tag is a
one-element vector: the matching `e` tag short-circuits the `any` before the short tag
is touched. -/
def c10_status : NEvent :=
  { id := "st1", pubkey := "bob", created_at := 2, kind := 1632,
    tags := [["e", "root1"], ["broken"]] }

/-- A Status event referencing the root whose *first* tag is a one-element vector:
the `any` evaluates the short tag first and hits the out-of-bounds index. -/
def c10_status2 : NEvent :=
  { id := "st2", pubkey := "bob", created_at := 2, kind := 1632,
    tags := [["broken"], ["e", "root1"]] }

/-- A broken proposal root for the C8 scenario: it matches the repo coordinates but
carries no `commit` tag, so no tip patch can be found and the chain cannot be
assembled. -/
def c8_broken_root : NEvent :=
  { id := "broken-root", pubkey := "carol", created_at := 2, kind := PATCH_KIND,
    tags := [["t", "root"], ["a", "30617:alice:demo"]] }

/-- A well-formed second proposal root for the C8 scenario. -/
def c8_good_root : NEvent :=
  { id := "good-root", pubkey := "dave", created_at := 4, kind := PATCH_KIND,
    tags := [["t", "root"], ["a", "30617:alice:demo"], ["commit", "d1"], ["parent-commit", "d0"]] }

/-- A 40-character commit id used by the push scenario. -/
def sha1_a : String := "aaaaaaaaaaaaaaaaaaaaaaaaaaaaaaaaaaaaaaaa"

/-- Another 40-character commit id. -/
def sha1_b : String := "bbbbbbbbbbbbbbbbbbbbbbbbbbbbbbbbbbbbbbbb"

/-- A one-patch chain (`commit sha1_a`, `parent-commit sha1_b`) for the push
scenario. -/
def c2_patch : NEvent :=
  { id := "p1", pubkey := "alice", created_at := 1, kind := PATCH_KIND,
    tags := [["commit", sha1_a], ["parent-commit", sha1_b]] }

/-! ## Claim C3: transport candidate lists -/

/-- C3: for every server URL protocol and every optional forced protocol,
`get_read_protocols_to_try` and `get_write_protocols_to_try` return exactly the
ordered candidate lists of the §4.7 table, read as an ordered case analysis:
filesystem yields `[filesystem]` for both operations; otherwise a forced protocol
yields `[forced]`; http yields read `[unauth-http, ssh, http]` and write
`[ssh, http]`; ftp yields read `[ftp, ssh]` and write `[ssh, ftp]`; https or any
other scheme yields read `[unauth-https, ssh, https]` and write `[ssh, https]`. -/
theorem protocols_to_try_match_table :
    ∀ (s : ServerProtocol) (f : Option ServerProtocol),
      get_read_protocols_to_try s f = read_protocol_table s f ∧
      get_write_protocols_to_try s f = write_protocol_table s f := by
  intro s f
  cases s <;> cases f <;> exact ⟨rfl, rfl⟩

/-! ## Claim C4: authentication-error classification -/

/-- C4: an error whose kind is authentication-related (AuthRequired, HostKeyMismatch,
NoKeysAvailable, PermissionDenied, RepoNotVisible) and whose message carries the
kind's characteristic substring is classified `true` by
`error_might_be_authentication_related`; an error of any other kind whose message
carries none of the substrings is classified `false`; and
`fetch_or_list_error_is_not_authentication_failure` and
`push_error_is_not_authentication_failure` are each its exact pointwise negation. -/
theorem error_classification (e : TaggedError)
    (hauth : ∀ s, auth_kind_substring e.kind = some s →
      string_contains e.message s = true)
    (hother : is_auth_kind e.kind = false →
      ∀ s ∈ auth_error_substrings, string_contains e.message s = false) :
    error_might_be_authentication_related e.message = is_auth_kind e.kind ∧
    fetch_or_list_error_is_not_authentication_failure e.message =
      !error_might_be_authentication_related e.message ∧
    push_error_is_not_authentication_failure e.message =
      !error_might_be_authentication_related e.message := by
  refine ⟨?_, rfl, rfl⟩
  obtain ⟨k, msg⟩ := e
  simp only at hauth hother
  cases k <;>
    first
    | -- authentication-related kinds: the characteristic substring is present
      exact by
        have h := hauth _ rfl
        simp only [is_auth_kind, error_might_be_authentication_related, List.any_eq_true]
        exact ⟨_, by simp [auth_error_substrings], h⟩
    | -- all other kinds: none of the five substrings is present
      exact by
        have h := hother rfl
        simp only [is_auth_kind, error_might_be_authentication_related, List.any_eq_false]
        intro s hs
        simp [h s hs]

/-- Witness for C4 at a concrete wrapped AuthRequired error. -/
theorem error_classification_witness :
    error_might_be_authentication_related
        "ssh: all authentication attempts failed for host" =
      is_auth_kind ErrorKind.AuthRequired ∧
    fetch_or_list_error_is_not_authentication_failure
        "ssh: all authentication attempts failed for host" =
      !error_might_be_authentication_related
        "ssh: all authentication attempts failed for host" ∧
    push_error_is_not_authentication_failure
        "ssh: all authentication attempts failed for host" =
      !error_might_be_authentication_related
        "ssh: all authentication attempts failed for host" :=
  error_classification
    ⟨ErrorKind.AuthRequired, "ssh: all authentication attempts failed for host"⟩
    (by intro s hs; cases hs; decide)
    (by intro h; cases h)

/-! ## Claim C1: the repo-ref discovery loop diverges -/

/-- Once the `new_coordinate` flag is set, `maintainers.insert` steps never clear
it. -/
theorem add_maintainer_keeps_flag (st : RepoRefLoopState) (m : String)
    (h : st.new_coordinate = true) : (add_maintainer st m).new_coordinate = true := by
  unfold add_maintainer
  split <;> simp [h]

/-- Folding maintainer insertions keeps the flag set. -/
theorem foldl_add_maintainer_keeps_flag (ms : List String) :
    ∀ st : RepoRefLoopState, st.new_coordinate = true →
      (ms.foldl add_maintainer st).new_coordinate = true := by
  induction ms with
  | nil => intro st h; exact h
  | cons m rest ih =>
    intro st h
    exact ih _ (add_maintainer_keeps_flag st m h)

/-- Processing one event keeps the flag set. -/
theorem process_repo_event_keeps_flag (st : RepoRefLoopState) (e : NEvent)
    (h : st.new_coordinate = true) : (process_repo_event st e).new_coordinate = true := by
  unfold process_repo_event
  cases repo_ref_try_from e with
  | none => exact h
  | some rr => exact foldl_add_maintainer_keeps_flag rr.maintainers st h

/-- Folding event processing keeps the flag set. -/
theorem foldl_process_repo_event_keeps_flag (events : List NEvent) :
    ∀ st : RepoRefLoopState, st.new_coordinate = true →
      (events.foldl process_repo_event st).new_coordinate = true := by
  induction events with
  | nil => intro st h; exact h
  | cons e rest ih =>
    intro st h
    exact ih _ (process_repo_event_keeps_flag st e h)

/-- A whole loop iteration keeps the flag set: `new_coordinate` is never reset. -/
theorem repo_ref_loop_iteration_keeps_flag (g l : List NEvent) (c : List Coordinate)
    (st : RepoRefLoopState) (h : st.new_coordinate = true) :
    (repo_ref_loop_iteration g l c st).new_coordinate = true :=
  foldl_process_repo_event_keeps_flag
    (query_repo_events g (get_filter_repo_events c) ++
      query_repo_events l (get_filter_repo_events c)) st h

/-- With the flag set, the loop never reaches its break condition, whatever the
fuel. -/
theorem repo_ref_loop_stuck (g l : List NEvent) (c : List Coordinate) :
    ∀ (fuel : Nat) (st : RepoRefLoopState), st.new_coordinate = true →
      repo_ref_loop g l c fuel st = none := by
  intro fuel
  induction fuel with
  | zero => intro st _; rfl
  | succ n ih =>
    intro st h
    have h1 := repo_ref_loop_iteration_keeps_flag g l c st h
    simp only [repo_ref_loop, h1, if_true]
    exact ih _ h1

/-- C1 fails on the code: on a cache whose single announcement (at the seed
coordinates) names a maintainer outside the seed set, `get_repo_ref_from_cache`
never terminates — after the first pass `new_coordinate` is never reset to false and
the query filter is never extended, so the break condition is unreachable for every
amount of fuel. -/
theorem get_repo_ref_from_cache_diverges :
    ∀ fuel : Nat, get_repo_ref_from_cache fuel [] c1_local c1_seed =
      RepoRefOutcome.outOfFuel := by
  intro fuel
  unfold get_repo_ref_from_cache
  cases fuel with
  | zero => rfl
  | succ n =>
    have h1 : (repo_ref_loop_iteration [] c1_local c1_seed
        (repo_ref_initial_state c1_seed)).new_coordinate = true := by decide
    simp only [repo_ref_loop, h1, if_true]
    rw [repo_ref_loop_stuck [] c1_local c1_seed n _ h1]

/-! ## Claim C6: which announcement supplies the base fields -/

/-- C6 fails on the code: with two announcements for the same (author, identifier)
pair — the newer one (created_at 2) in the global cache, the older one (created_at 1)
in the local cache — the returned RepoRef takes its base fields (relays, VCS server
URLs) from the announcement with the *oldest* `created_at`: the source sorts
`repo_events` ascending and builds the base from the first element. -/
theorem repo_ref_base_fields_from_oldest :
    repo_ref_outcome_relays (get_repo_ref_from_cache 1 c6_global c6_local c6_seed) =
      some ["wss-relay.old.example"] ∧
    repo_ref_outcome_git_servers (get_repo_ref_from_cache 1 c6_global c6_local c6_seed) =
      some ["https-git.old.example"] ∧
    repo_ref_outcome_relays (get_repo_ref_from_cache 1 c6_global c6_local c6_seed) ≠
      some ["wss-relay.new.example"] ∧
    repo_ref_outcome_git_servers (get_repo_ref_from_cache 1 c6_global c6_local c6_seed) ≠
      some ["https-git.new.example"] := by
  refine ⟨by decide, by decide, by decide, by decide⟩

/-! ## Claim C7: Metadata events are not mirrored -/

/-- C7 fails on the code: a fetched Metadata event that is not in the cache is saved
to the per-repo cache only — the Metadata branch of `process_fetched_event` sits in
the `else` of the "does not reference a known proposal root" test, which an ordinary
profile event always enters, so the event is neither mirrored to the global cache nor
recorded among the report's contributor profiles. -/
theorem metadata_event_not_mirrored :
    (process_fetched_event c7_event c7_request initial_process_state).local_cache_saves =
      ["meta1"] ∧
    (process_fetched_event c7_event c7_request initial_process_state).global_cache_saves =
      [] ∧
    (process_fetched_event c7_event c7_request initial_process_state).report.contributor_profiles =
      [] := by
  refine ⟨by decide, by decide, by decide⟩

/-! ## Claim C9: fetch-batch accumulation -/

/-- Equality tests agree with their flipped versions on strings. -/
theorem str_beq_comm (a b : String) : (a == b) = (b == a) := by
  by_cases h : a = b
  · simp [h]
  · simp [h, Ne.symm h]

/-- Finding by one key is unaffected by filtering out a different key. -/
theorem find?_filter_ne (k r : String) (h : (r == k) = false)
    (m : List (String × String)) :
    (m.filter (fun p => p.1 != k)).find? (fun p => p.1 == r) =
      m.find? (fun p => p.1 == r) := by
  induction m with
  | nil => rfl
  | cons q rest ih =>
    by_cases hq : q.1 = r
    · have hrk : ¬(r = k) := by
        intro hc
        subst hc
        simp at h
      have hk : (q.1 != k) = true := by
        subst hq
        simp only [bne, h, Bool.not_false]
      simp [List.filter_cons, hk, hrk, List.find?_cons, hq]
    · by_cases hqk : q.1 = k
      · have hk : (q.1 != k) = false := by simp [bne, hqk]
        have hr : (q.1 == r) = false := by simp [hq]
        simp [List.filter_cons, hk, List.find?_cons, hr, ih]
      · have hk : (q.1 != k) = true := by simp [bne, hqk]
        have hr : (q.1 == r) = false := by simp [hq]
        simp [List.filter_cons, hk, List.find?_cons, hr, ih]

/-- Lookup after insertion: the inserted key shadows, others look through. -/
theorem hashmap_get_insert (m : List (String × String)) (k v r : String) :
    hashmap_get (hashmap_insert m k v) r =
      if r == k then some v else hashmap_get m r := by
  by_cases h : r = k
  · subst h
    simp [hashmap_get, hashmap_insert, List.find?_cons]
  · have hrk : (r == k) = false := by simp [h]
    have hkr : (k == r) = false := by simp [Ne.symm h]
    simp only [hashmap_get, hashmap_insert, List.find?_cons, hkr, hrk, if_false,
      cond_false, Bool.false_eq_true]
    rw [find?_filter_ne k r hrk m]

/-- `Option.or` is associative. -/
theorem option_or_assoc {α : Type} (a b c : Option α) :
    (a.or b).or c = a.or (b.or c) := by
  cases a <;> rfl

/-- `Option.map` distributes over `Option.or`. -/
theorem option_map_or {α β : Type} (f : α → β) (a b : Option α) :
    (a.or b).map f = (a.map f).or (b.map f) := by
  cases a <;> rfl

/-- Unfolding `last_oid_for` over a cons cell: later pairs win. -/
theorem last_oid_for_cons (rz oz : String) (pairs : List (String × String)) (r : String) :
    last_oid_for ((rz, oz) :: pairs) r =
      (last_oid_for pairs r).or (if rz == r then some oz else none) := by
  simp only [last_oid_for, List.reverse_cons, List.find?_append, option_map_or]
  congr 1
  by_cases h : (rz == r) = true
  · simp [List.find?_cons, h]
  · simp only [Bool.not_eq_true] at h
    simp [List.find?_cons, h]

/-- The read loop on an all-fetch prefix: the final lookup prefers the batched pairs
(later lines winning) and falls back to the incoming batch. -/
theorem fetch_batch_loop_ok :
    ∀ (lines : List String) (pairs : List (String × String)),
      fetch_lines_before_blank lines = some pairs →
      ∀ batch, ∃ m, fetch_batch_loop batch lines = Except.ok m ∧
        ∀ r, hashmap_get m r = (last_oid_for pairs r).or (hashmap_get batch r) := by
  intro lines
  induction lines with
  | nil =>
    intro pairs h batch
    simp only [fetch_lines_before_blank, Option.some.injEq] at h
    subst h
    exact ⟨batch, rfl, fun r => by simp [last_oid_for, Option.or]⟩
  | cons line rest ih =>
    intro pairs h batch
    unfold fetch_lines_before_blank at h
    unfold fetch_batch_loop
    split at h
    case h_1 oid refstr heq =>
      obtain ⟨pairs0, hp0, hp⟩ := Option.map_eq_some'.mp h
      subst hp
      obtain ⟨m, hm, hget⟩ := ih pairs0 hp0 (hashmap_insert batch refstr oid)
      refine ⟨m, hm, fun r => ?_⟩
      rw [hget r, hashmap_get_insert, last_oid_for_cons, option_or_assoc]
      congr 1
      by_cases hr : r = refstr
      · subst hr; simp [Option.or]
      · have h1 : (r == refstr) = false := by simp [hr]
        have h2 : (refstr == r) = false := by simp [Ne.symm hr]
        simp [h1, h2, Option.or]
    case h_2 heq =>
      simp only [Option.some.injEq] at h
      subst h
      exact ⟨batch, rfl, fun r => by simp [last_oid_for, Option.or]⟩
    case h_3 =>
      exact absurd h (by simp)

/-- The read loop errors whenever a non-fetch, non-blank line precedes the first
blank line. -/
theorem fetch_batch_loop_error :
    ∀ (lines : List String), fetch_lines_before_blank lines = none →
      ∀ batch, ∃ msg, fetch_batch_loop batch lines = Except.error msg := by
  intro lines
  induction lines with
  | nil => intro h; exact absurd h (by simp [fetch_lines_before_blank])
  | cons line rest ih =>
    intro h batch
    unfold fetch_lines_before_blank at h
    unfold fetch_batch_loop
    split at h
    case h_1 oid refstr heq =>
      rw [Option.map_eq_none'] at h
      exact ih h (hashmap_insert batch refstr oid)
    case h_2 heq =>
      exact absurd h (by simp)
    case h_3 hne1 hne2 =>
      exact ⟨_, rfl⟩

/-- C9 as stated fails on the code: a later `fetch` line naming the initial refstr
overwrites the initial pair, so the returned batch does not contain it. -/
theorem fetch_batch_overwrites_initial_pair :
    get_oids_from_fetch_batch ["fetch b r", ""] "a" "r" = Except.ok [("r", "b")] ∧
    hashmap_get [("r", "b")] "r" ≠ some "a" := by
  refine ⟨rfl, by decide⟩

/-- C9 amended: `get_oids_from_fetch_batch` reads lines until the first blank line
(or end of input), adding each further `fetch <oid> <refstr>` line's (refstr, oid)
pair to the batch, and errors on any line that is neither another fetch nor blank;
the returned batch maps each refstr to the oid of the *last* fetch line naming it,
the initial pair counting as first (so the initial pair is present unless a later
fetch line names the same refstr). -/
theorem get_oids_from_fetch_batch_amended :
    ∀ (lines : List String) (initial_oid initial_refstr : String),
      (fetch_lines_before_blank lines = none →
        ∃ msg, get_oids_from_fetch_batch lines initial_oid initial_refstr =
          Except.error msg) ∧
      (∀ pairs, fetch_lines_before_blank lines = some pairs →
        ∃ m, get_oids_from_fetch_batch lines initial_oid initial_refstr =
            Except.ok m ∧
          ∀ r, hashmap_get m r =
            last_oid_for ((initial_refstr, initial_oid) :: pairs) r) := by
  intro lines initial_oid initial_refstr
  constructor
  · intro h
    exact fetch_batch_loop_error lines h _
  · intro pairs h
    obtain ⟨m, hm, hget⟩ :=
      fetch_batch_loop_ok lines pairs h (hashmap_insert [] initial_refstr initial_oid)
    refine ⟨m, hm, fun r => ?_⟩
    rw [hget r, hashmap_get_insert, last_oid_for_cons]
    congr 1
    by_cases hr : r = initial_refstr
    · subst hr
      simp [hashmap_get]
    · have h1 : (r == initial_refstr) = false := by simp [hr]
      have h2 : (initial_refstr == r) = false := by simp [Ne.symm hr]
      simp [h1, h2, hashmap_get]

/-- Witness for the amended C9 at a concrete two-line batch. -/
theorem get_oids_from_fetch_batch_amended_witness :
    ∃ m, get_oids_from_fetch_batch ["fetch x y"] "o0" "r0" = Except.ok m ∧
      ∀ r, hashmap_get m r = last_oid_for [("r0", "o0"), ("y", "x")] r :=
  (get_oids_from_fetch_batch_amended ["fetch x y"] "o0" "r0").2 [("y", "x")] rfl

/-! ## Claim C2: push-outcome classification -/

/-- C2: for a well-formed chain (nonempty, tip `commit` tag and base `parent-commit`
tag present and valid SHA1s), the non-force push path ends in exactly one of the
enumerated §4.5 outcomes — the classification is total (`isSome`) and each outcome
holds precisely under its §4.5 condition: tip = branch tip ⇔ UpToDate; some patch's
parent-commit = branch tip (tip differing) ⇔ LocalBehindProposal; behind nonempty ⇔
LocalDiverged; no common ancestor with base an ancestor of the tip ⇔
AmendmentsRequireForce; no common ancestor otherwise ⇔ RebaseRequiresForce; and
otherwise one new Patch event per ahead commit, in order (PublishPatches). -/
theorem push_update_classifies
    (branch_tip : String) (chain : List NEvent)
    (ahead_behind : Option (List String × List String)) (base_is_ancestor : Bool)
    (tip : String)
    (h1 : chain_tip_commit chain = some tip)
    (h2 : (chain_base_parent chain).isSome = true) :
    (push_update branch_tip chain ahead_behind base_is_ancestor).isSome = true ∧
    (push_update branch_tip chain ahead_behind base_is_ancestor =
        some PushOutcome.UpToDate ↔ tip = branch_tip) ∧
    (push_update branch_tip chain ahead_behind base_is_ancestor =
        some PushOutcome.LocalBehindProposal ↔
      tip ≠ branch_tip ∧ chain_has_parent_eq branch_tip chain = true) ∧
    (∀ n, push_update branch_tip chain ahead_behind base_is_ancestor =
        some (PushOutcome.LocalDiverged n) ↔
      tip ≠ branch_tip ∧ chain_has_parent_eq branch_tip chain = false ∧
      ∃ a b, ahead_behind = some (a, b) ∧ b ≠ [] ∧ n = b.length) ∧
    (push_update branch_tip chain ahead_behind base_is_ancestor =
        some PushOutcome.AmendmentsRequireForce ↔
      tip ≠ branch_tip ∧ chain_has_parent_eq branch_tip chain = false ∧
      ahead_behind = none ∧ base_is_ancestor = true) ∧
    (push_update branch_tip chain ahead_behind base_is_ancestor =
        some PushOutcome.RebaseRequiresForce ↔
      tip ≠ branch_tip ∧ chain_has_parent_eq branch_tip chain = false ∧
      ahead_behind = none ∧ base_is_ancestor = false) ∧
    (∀ a, push_update branch_tip chain ahead_behind base_is_ancestor =
        some (PushOutcome.PublishPatches a) ↔
      tip ≠ branch_tip ∧ chain_has_parent_eq branch_tip chain = false ∧
      ahead_behind = some (a, [])) := by
  obtain ⟨base, hb⟩ := Option.isSome_iff_exists.mp h2
  unfold push_update
  rw [h1, hb]
  by_cases ht : tip = branch_tip
  · have ht' : (tip == branch_tip) = true := by simp [ht]
    simp [ht', ht]
  · have ht' : (tip == branch_tip) = false := by simp [ht]
    by_cases hp : chain_has_parent_eq branch_tip chain = true
    · simp [ht', ht, hp]
    · have hp' : chain_has_parent_eq branch_tip chain = false := by
        simp only [Bool.not_eq_true] at hp
        exact hp
      cases ahead_behind with
      | none =>
        cases base_is_ancestor with
        | true => simp [ht', ht, hp']
        | false => simp [ht', ht, hp']
      | some ab =>
        obtain ⟨a, b⟩ := ab
        cases hbe : b.isEmpty with
        | true =>
          have hbnil : b = [] := List.isEmpty_iff.mp hbe
          subst hbnil
          simp [ht', ht, hp']
        | false =>
          have hbnil : b ≠ [] := by
            intro hc
            subst hc
            simp at hbe
          simp [ht', ht, hp', hbe, hbnil]
          intro n
          constructor
          · intro hn
            exact ⟨a, b, ⟨rfl, rfl⟩, hbnil, hn.symm⟩
          · rintro ⟨a', b', ⟨ha, hb2⟩, -, hn⟩
            subst hb2
            exact hn.symm

/-- Witness for C2 at a one-patch chain whose tip equals the branch tip. -/
theorem push_update_classifies_witness :
    (push_update sha1_a [c2_patch] none false).isSome = true ∧
    (push_update sha1_a [c2_patch] none false = some PushOutcome.UpToDate ↔
      sha1_a = sha1_a) ∧
    (push_update sha1_a [c2_patch] none false = some PushOutcome.LocalBehindProposal ↔
      sha1_a ≠ sha1_a ∧ chain_has_parent_eq sha1_a [c2_patch] = true) ∧
    (∀ n, push_update sha1_a [c2_patch] none false = some (PushOutcome.LocalDiverged n) ↔
      sha1_a ≠ sha1_a ∧ chain_has_parent_eq sha1_a [c2_patch] = false ∧
      ∃ a b, (none : Option (List String × List String)) = some (a, b) ∧ b ≠ [] ∧
        n = b.length) ∧
    (push_update sha1_a [c2_patch] none false = some PushOutcome.AmendmentsRequireForce ↔
      sha1_a ≠ sha1_a ∧ chain_has_parent_eq sha1_a [c2_patch] = false ∧
      (none : Option (List String × List String)) = none ∧ false = true) ∧
    (push_update sha1_a [c2_patch] none false = some PushOutcome.RebaseRequiresForce ↔
      sha1_a ≠ sha1_a ∧ chain_has_parent_eq sha1_a [c2_patch] = false ∧
      (none : Option (List String × List String)) = none ∧ false = false) ∧
    (∀ a, push_update sha1_a [c2_patch] none false = some (PushOutcome.PublishPatches a) ↔
      sha1_a ≠ sha1_a ∧ chain_has_parent_eq sha1_a [c2_patch] = false ∧
      (none : Option (List String × List String)) = some (a, [])) :=
  push_update_classifies sha1_a [c2_patch] none false sha1_a (by decide) (by decide)

/-! ## Lemmas about sorting and the status machinery (claims C5, C8, C10) -/

/-- Membership through `insert_by_created_at`. -/
theorem mem_insert_by_created_at (e a : NEvent) :
    ∀ l : List NEvent, (a ∈ insert_by_created_at e l ↔ a = e ∨ a ∈ l) := by
  intro l
  induction l with
  | nil => simp [insert_by_created_at]
  | cons x xs ih =>
    unfold insert_by_created_at
    split
    · simp
    · simp only [List.mem_cons, ih]
      tauto

/-- Membership through `sort_by_created_at`. -/
theorem mem_sort_by_created_at (a : NEvent) :
    ∀ l : List NEvent, (a ∈ sort_by_created_at l ↔ a ∈ l) := by
  intro l
  induction l with
  | nil => simp [sort_by_created_at]
  | cons x xs ih =>
    simp [sort_by_created_at, mem_insert_by_created_at, ih]

/-- Insertion preserves ascending pairwise order. -/
theorem pairwise_insert_by_created_at (e : NEvent) :
    ∀ l : List NEvent,
      l.Pairwise (fun x y => x.created_at ≤ y.created_at) →
      (insert_by_created_at e l).Pairwise (fun x y => x.created_at ≤ y.created_at) := by
  intro l
  induction l with
  | nil => intro _; simp [insert_by_created_at]
  | cons x xs ih =>
    intro h
    rw [List.pairwise_cons] at h
    obtain ⟨hx, hxs⟩ := h
    unfold insert_by_created_at
    split
    case isTrue hle =>
      refine List.Pairwise.cons ?_ (List.Pairwise.cons hx hxs)
      intro b hb
      rcases List.mem_cons.mp hb with hbx | hbxs
      · subst hbx; exact hle
      · exact le_trans hle (hx b hbxs)
    case isFalse hgt =>
      refine List.Pairwise.cons ?_ (ih hxs)
      intro b hb
      rcases (mem_insert_by_created_at e b xs).mp hb with hbe | hbxs
      · subst hbe
        exact le_of_not_le hgt
      · exact hx b hbxs

/-- The sort really sorts ascending. -/
theorem pairwise_sort_by_created_at :
    ∀ l : List NEvent,
      (sort_by_created_at l).Pairwise (fun x y => x.created_at ≤ y.created_at) := by
  intro l
  induction l with
  | nil => simp [sort_by_created_at]
  | cons x xs ih => exact pairwise_insert_by_created_at x _ ih

/-- With every tag at least two elements long, the panicking `any` computes the plain
boolean `any` over the value slots. -/
theorem tag_check_any_eq (pid : String) :
    ∀ tags : List (List String), (∀ t ∈ tags, 2 ≤ t.length) →
      tag_check_any pid tags = some (tags.any (tag_value_matches pid)) := by
  intro tags
  induction tags with
  | nil => intro _; rfl
  | cons t rest ih =>
    intro h
    have ht := h t (List.mem_cons_self t rest)
    have hrest : ∀ x ∈ rest, 2 ≤ x.length :=
      fun x hx => h x (List.mem_cons_of_mem t hx)
    match t, ht with
    | a :: b :: t2, _ =>
      have hget : (a :: b :: t2).get? 1 = some b := rfl
      unfold tag_check_any
      rw [hget, List.any_cons]
      have hmatch : tag_value_matches pid (a :: b :: t2) = (b == pid) := rfl
      rw [hmatch]
      cases hb : b == pid with
      | true => simp [hb]
      | false => simp [hb, ih hrest]

/-- With well-length tags on all status events of the list, the eager status filter
computes the plain `filter` by `status_targets`. -/
theorem filter_statuses_eq (pid : String) :
    ∀ l : List NEvent,
      (∀ e ∈ l, status_kinds.contains e.kind = true → ∀ t ∈ e.tags, 2 ≤ t.length) →
      filter_statuses_for pid l = some (l.filter (status_targets pid)) := by
  intro l
  induction l with
  | nil => intro _; rfl
  | cons e rest ih =>
    intro h
    have hrest := fun x hx => h x (List.mem_cons_of_mem e hx)
    unfold filter_statuses_for
    rw [List.filter_cons]
    by_cases hk : status_kinds.contains e.kind = true
    · rw [if_pos hk, tag_check_any_eq pid e.tags (h e (List.mem_cons_self e rest) hk),
        ih hrest]
      have ht : status_targets pid e = e.tags.any (tag_value_matches pid) := by
        unfold status_targets
        rw [hk, Bool.true_and]
      rw [ht]
    · have hk' : status_kinds.contains e.kind = false := by
        simp only [Bool.not_eq_true] at hk
        exact hk
      rw [if_neg hk, ih hrest]
      have ht : status_targets pid e = false := by
        unfold status_targets
        rw [hk', Bool.false_and]
      rw [ht]

/-- The computed status of a proposal, under the no-panic precondition. -/
theorem proposal_status_eq (pid : String) (sd : List NEvent)
    (h : ∀ e ∈ sd, status_kinds.contains e.kind = true → ∀ t ∈ e.tags, 2 ≤ t.length) :
    proposal_status sd pid = some (match (sd.filter (status_targets pid)).head? with
      | some e => e.kind
      | none => GIT_STATUS_OPEN) := by
  unfold proposal_status
  rw [filter_statuses_eq pid sd h]

/-- The maximum is a member. -/
theorem max_by_created_at_mem :
    ∀ (l : List NEvent) (m : NEvent), max_by_created_at l = some m → m ∈ l := by
  intro l
  induction l with
  | nil => intro m h; cases h
  | cons e rest ih =>
    intro m h
    unfold max_by_created_at at h
    cases hr : max_by_created_at rest with
    | none =>
      rw [hr] at h
      cases h
      simp
    | some m0 =>
      rw [hr] at h
      cases h
      split <;> simp [ih m0 hr]

/-- The maximum dominates every member. -/
theorem max_by_created_at_ge :
    ∀ (l : List NEvent) (m : NEvent), max_by_created_at l = some m →
      ∀ x ∈ l, x.created_at ≤ m.created_at := by
  intro l
  induction l with
  | nil => intro m h; cases h
  | cons e rest ih =>
    intro m h x hx
    unfold max_by_created_at at h
    cases hr : max_by_created_at rest with
    | none =>
      rw [hr] at h
      cases h
      have : rest = [] := by
        cases rest with
        | nil => rfl
        | cons a b =>
          exfalso
          unfold max_by_created_at at hr
          cases hr2 : max_by_created_at b <;> rw [hr2] at hr <;> cases hr
      subst this
      simp at hx
      subst hx
      exact le_refl _
    | some m0 =>
      rw [hr] at h
      cases h
      rcases List.mem_cons.mp hx with hxe | hxr
      · subst hxe
        split
        · exact le_refl _
        · exact le_of_not_lt (by simpa using ‹¬ m0.created_at < x.created_at›)
      · have hle := ih m0 hr x hxr
        split
        case isTrue hlt => exact le_trans hle (le_of_lt hlt)
        case isFalse => exact hle

/-- The maximum exists exactly on nonempty lists. -/
theorem max_by_created_at_eq_none :
    ∀ l : List NEvent, max_by_created_at l = none ↔ l = [] := by
  intro l
  cases l with
  | nil => simp [max_by_created_at]
  | cons e rest =>
    simp only [max_by_created_at]
    cases hr : max_by_created_at rest <;> simp

/-- The head of a descending-sorted list dominates every member. -/
theorem pairwise_ge_head (l : List NEvent) (h0 : NEvent)
    (hp : l.Pairwise (fun x y => y.created_at ≤ x.created_at))
    (hh : l.head? = some h0) : ∀ x ∈ l, x.created_at ≤ h0.created_at := by
  cases l with
  | nil => cases hh
  | cons e rest =>
    cases hh
    rw [List.pairwise_cons] at hp
    intro x hx
    rcases List.mem_cons.mp hx with hxe | hxr
    · subst hxe; exact le_refl _
    · exact hp.1 x hxr

/-- In a created_at-distinct list, equal timestamps force equal elements. -/
theorem distinct_go_unique :
    ∀ l : List NEvent, distinct_status_created_at.go l = true →
      ∀ x ∈ l, ∀ y ∈ l, x.created_at = y.created_at → x = y := by
  intro l
  induction l with
  | nil => intro _ x hx; cases hx
  | cons e rest ih =>
    intro h x hx y hy hxy
    unfold distinct_status_created_at.go at h
    rw [Bool.and_eq_true, List.all_eq_true] at h
    obtain ⟨hall, hrest⟩ := h
    rcases List.mem_cons.mp hx with hxe | hxr <;> rcases List.mem_cons.mp hy with hye | hyr
    · subst hxe hye; rfl
    · subst hxe
      exact absurd hxy.symm (by simpa using hall y hyr)
    · subst hye
      exact absurd hxy (by simpa using hall x hxr)
    · exact ih hrest x hxr y hyr hxy

/-- Unpacking `status_tag_lengths_ok`. -/
theorem lengths_ok_forall (cache : List NEvent)
    (h : status_tag_lengths_ok cache = true) :
    ∀ e ∈ cache, status_kinds.contains e.kind = true → ∀ t ∈ e.tags, 2 ≤ t.length := by
  intro e he hk t ht
  rw [status_tag_lengths_ok, List.all_eq_true] at h
  have h2 := h e he
  rw [hk] at h2
  simp only [Bool.not_true, Bool.false_or, List.all_eq_true] at h2
  exact of_decide_eq_true (h2 t ht)

/-- Unpacking `status_tags_wellformed`. -/
theorem wellformed_forall (cache : List NEvent)
    (h : status_tags_wellformed cache = true) :
    ∀ e ∈ cache, status_kinds.contains e.kind = true →
      ∀ t ∈ e.tags, 2 ≤ t.length ∧ t.head? = some "e" := by
  intro e he hk t ht
  rw [status_tags_wellformed, List.all_eq_true] at h
  have h2 := h e he
  rw [hk] at h2
  simp only [Bool.not_true, Bool.false_or, List.all_eq_true] at h2
  have h3 := h2 t ht
  rw [Bool.and_eq_true] at h3
  exact ⟨of_decide_eq_true h3.1, by simpa using h3.2⟩

/-- `status_tags_wellformed` implies the lengths-only condition. -/
theorem wellformed_lengths (cache : List NEvent)
    (h : status_tags_wellformed cache = true) :
    ∀ e ∈ cache, status_kinds.contains e.kind = true → ∀ t ∈ e.tags, 2 ≤ t.length :=
  fun e he hk t ht => (wellformed_forall cache h e he hk t ht).1

/-- A targeting event passes the cache's status filter, provided its tags are
well-formed `e` references and the target id is among the proposal ids. -/
theorem targets_implies_filter_matches (ids : List String) (pid : String)
    (hpid : pid ∈ ids) (e : NEvent)
    (hwfe : ∀ t ∈ e.tags, 2 ≤ t.length ∧ t.head? = some "e")
    (ht : status_targets pid e = true) :
    status_filter_matches ids e = true := by
  unfold status_targets at ht
  rw [Bool.and_eq_true, List.any_eq_true] at ht
  obtain ⟨hk, t, htmem, htv⟩ := ht
  unfold tag_value_matches at htv
  unfold status_filter_matches
  rw [Bool.and_eq_true, List.any_eq_true]
  refine ⟨hk, t, htmem, ?_⟩
  obtain ⟨-, hhead⟩ := hwfe t htmem
  cases hget : t.get? 1 with
  | none => rw [hget] at htv; cases htv
  | some v =>
    rw [hget] at htv
    have hv : v = pid := by simpa using htv
    subst hv
    rw [Bool.and_eq_true]
    refine ⟨by simp [hhead], ?_⟩
    simpa using hpid

/-- The status the loop computes for a proposal is Open exactly when the claim-side
`latest_status_open` holds, under well-formed tags and distinct status timestamps. -/
theorem status_decision (cache : List NEvent) (ids : List String) (pid : String)
    (hwf : status_tags_wellformed cache = true)
    (hdist : distinct_status_created_at cache = true)
    (hpid : pid ∈ ids) :
    ((match ((sort_by_created_at (cache.filter (status_filter_matches ids))).reverse.filter
        (status_targets pid)).head? with
      | some e => e.kind
      | none => GIT_STATUS_OPEN) = GIT_STATUS_OPEN ↔
      latest_status_open cache pid = true) := by
  have hmemL : ∀ x : NEvent,
      x ∈ (sort_by_created_at (cache.filter (status_filter_matches ids))).reverse.filter
        (status_targets pid) ↔ x ∈ cache ∧ status_targets pid x = true := by
    intro x
    rw [List.mem_filter, List.mem_reverse, mem_sort_by_created_at, List.mem_filter]
    constructor
    · rintro ⟨⟨hc, -⟩, htg⟩
      exact ⟨hc, htg⟩
    · rintro ⟨hc, htg⟩
      have hsk : status_kinds.contains x.kind = true := by
        have htg2 := htg
        unfold status_targets at htg2
        rw [Bool.and_eq_true] at htg2
        exact htg2.1
      exact ⟨⟨hc, targets_implies_filter_matches ids pid hpid x
        (wellformed_forall cache hwf x hc hsk) htg⟩, htg⟩
  have hdesc : ((sort_by_created_at (cache.filter (status_filter_matches ids))).reverse.filter
      (status_targets pid)).Pairwise (fun a b => b.created_at ≤ a.created_at) := by
    refine List.Pairwise.sublist (List.filter_sublist _) ?_
    rw [List.pairwise_reverse]
    exact pairwise_sort_by_created_at _
  unfold latest_status_open
  cases hL : ((sort_by_created_at (cache.filter (status_filter_matches ids))).reverse.filter
      (status_targets pid)).head? with
  | none =>
    have hLnil : ((sort_by_created_at (cache.filter (status_filter_matches ids))).reverse.filter
        (status_targets pid)) = [] := List.head?_eq_none_iff.mp hL
    have hT : cache.filter (status_targets pid) = [] := by
      rw [List.eq_nil_iff_forall_not_mem]
      intro x hx
      have hx2 : x ∈ cache ∧ status_targets pid x = true := by
        rw [List.mem_filter] at hx
        exact hx
      have := (hmemL x).mpr hx2
      rw [hLnil] at this
      cases this
    rw [hT]
    simp [max_by_created_at]
  | some h0 =>
    have hh0L : h0 ∈ (sort_by_created_at (cache.filter (status_filter_matches ids))).reverse.filter
        (status_targets pid) := by
      cases hLl : (sort_by_created_at (cache.filter (status_filter_matches ids))).reverse.filter
          (status_targets pid) with
      | nil => rw [hLl] at hL; cases hL
      | cons a b =>
        rw [hLl] at hL
        cases hL
        simp [hLl]
    have hh0T : h0 ∈ cache.filter (status_targets pid) := by
      rw [List.mem_filter]
      exact (hmemL h0).mp hh0L
    have hTne : cache.filter (status_targets pid) ≠ [] := by
      intro hc
      rw [hc] at hh0T
      cases hh0T
    obtain ⟨mx, hmx⟩ : ∃ mx, max_by_created_at (cache.filter (status_targets pid)) = some mx := by
      cases hm : max_by_created_at (cache.filter (status_targets pid)) with
      | none => exact absurd ((max_by_created_at_eq_none _).mp hm) hTne
      | some mx => exact ⟨mx, rfl⟩
    have hmxT := max_by_created_at_mem _ mx hmx
    have h1 : h0.created_at ≤ mx.created_at := max_by_created_at_ge _ mx hmx h0 hh0T
    have h2 : mx.created_at ≤ h0.created_at := by
      refine pairwise_ge_head _ h0 hdesc hL mx ?_
      rw [hmemL mx]
      rw [List.mem_filter] at hmxT
      exact hmxT
    have hsub : ∀ x ∈ cache.filter (status_targets pid),
        x ∈ cache.filter (fun e => status_kinds.contains e.kind) := by
      intro x hx
      rw [List.mem_filter] at hx ⊢
      refine ⟨hx.1, ?_⟩
      have hx2 := hx.2
      unfold status_targets at hx2
      rw [Bool.and_eq_true] at hx2
      exact hx2.1
    have heq : h0 = mx := by
      refine distinct_go_unique _ ?_ h0 (hsub h0 hh0T) mx (hsub mx hmxT)
        (le_antisymm h1 h2)
      unfold distinct_status_created_at at hdist
      exact hdist
    subst heq
    rw [hmx]
    show h0.kind = GIT_STATUS_OPEN ↔ (h0.kind == GIT_STATUS_OPEN) = true
    constructor
    · intro hk
      simp [hk]
    · intro hk
      simpa using hk

/-- Specification of the per-proposal loop: it succeeds when every status lookup
succeeds, and its entries are exactly the open proposals with assemblable chains. -/
theorem open_proposals_loop_spec (cache sd : List NEvent) :
    ∀ props : List NEvent,
      (∀ q ∈ props, (proposal_status sd q.id).isSome = true) →
      ∃ m, open_proposals_loop cache sd props = some m ∧
        ∀ x, x ∈ m ↔ ∃ q, q ∈ props ∧
          proposal_status sd q.id = some GIT_STATUS_OPEN ∧
          ∃ chain, get_most_recent_patch_with_ancestors
            (get_all_proposal_patch_events_from_cache cache q.id) = some chain ∧
          x = (q.id, q, chain) := by
  intro props
  induction props with
  | nil =>
    intro _
    refine ⟨[], rfl, fun x => ?_⟩
    simp
  | cons p rest ih =>
    intro h
    obtain ⟨k, hk⟩ := Option.isSome_iff_exists.mp (h p (List.mem_cons_self p rest))
    obtain ⟨m0, hm0, hmem⟩ := ih (fun q hq => h q (List.mem_cons_of_mem p hq))
    unfold open_proposals_loop
    rw [hk, hm0]
    cases hbeq : k == GIT_STATUS_OPEN with
    | true =>
      have hko : k = GIT_STATUS_OPEN := by simpa using hbeq
      subst hko
      cases hbuild : get_most_recent_patch_with_ancestors
          (get_all_proposal_patch_events_from_cache cache p.id) with
      | some chain =>
        refine ⟨(p.id, p, chain) :: m0, by rfl, fun x => ?_⟩
        rw [List.mem_cons, hmem x]
        constructor
        · rintro (hx | ⟨q, hq, hqs, ch, hch, hxq⟩)
          · exact ⟨p, List.mem_cons_self p rest, hk, chain, hbuild, hx⟩
          · exact ⟨q, List.mem_cons_of_mem p hq, hqs, ch, hch, hxq⟩
        · rintro ⟨q, hq, hqs, ch, hch, hxq⟩
          rcases List.mem_cons.mp hq with hqp | hqr
          · subst hqp
            rw [hbuild] at hch
            cases hch
            exact Or.inl hxq
          · exact Or.inr ⟨q, hqr, hqs, ch, hch, hxq⟩
      | none =>
        refine ⟨m0, by rfl, fun x => ?_⟩
        rw [hmem x]
        constructor
        · rintro ⟨q, hq, hqs, ch, hch, hxq⟩
          exact ⟨q, List.mem_cons_of_mem p hq, hqs, ch, hch, hxq⟩
        · rintro ⟨q, hq, hqs, ch, hch, hxq⟩
          rcases List.mem_cons.mp hq with hqp | hqr
          · subst hqp
            rw [hbuild] at hch
            cases hch
          · exact ⟨q, hqr, hqs, ch, hch, hxq⟩
    | false =>
      refine ⟨m0, by simp [hbeq], fun x => ?_⟩
      rw [hmem x]
      constructor
      · rintro ⟨q, hq, hqs, ch, hch, hxq⟩
        exact ⟨q, List.mem_cons_of_mem p hq, hqs, ch, hch, hxq⟩
      · rintro ⟨q, hq, hqs, ch, hch, hxq⟩
        rcases List.mem_cons.mp hq with hqp | hqr
        · subst hqp
          rw [hk] at hqs
          injection hqs with hkk
          subst hkk
          simp at hbeq
        · exact ⟨q, hqr, hqs, ch, hch, hxq⟩

/-- A successful backward walk starts at its starting patch and is parent-commit
linked throughout. -/
theorem walk_chain_spec (patches : List NEvent) :
    ∀ (fuel : Nat) (cur : NEvent) (l : List NEvent),
      walk_chain patches fuel cur = some l →
      l.head? = some cur ∧ chain_linked l = true := by
  intro fuel
  induction fuel with
  | zero => intro cur l h; cases h
  | succ n ih =>
    intro cur l h
    unfold walk_chain at h
    cases hpar : patch_parent_commit cur with
    | none => rw [hpar] at h; cases h
    | some parent =>
      simp only [hpar] at h
      cases hfind : patches.find? (fun q => get_commit_id_from_patch q == some parent) with
      | none =>
        rw [hfind] at h
        cases h
        exact ⟨rfl, rfl⟩
      | some q =>
        simp only [hfind] at h
        cases hw : walk_chain patches n q with
        | none => rw [hw] at h; cases h
        | some rest =>
          rw [hw] at h
          cases h
          obtain ⟨hhead, hlink⟩ := ih q rest hw
          have hq := List.find?_some hfind
          have hqc : get_commit_id_from_patch q = some parent := by
            simpa using hq
          cases rest with
          | nil => cases hhead
          | cons r0 rest2 =>
            have hr0 : r0 = q := by
              simpa using hhead
            subst hr0
            refine ⟨rfl, ?_⟩
            unfold chain_linked
            rw [hpar, hqc]
            simp [hlink]

/-- The proposals the listing iterates over are exactly the cached matching
non-revision roots. -/
theorem mem_open_proposal_candidates (cache : List NEvent) (coords : List Coordinate)
    (p : NEvent) :
    p ∈ (get_proposals_and_revisions_from_cache cache coords).filter
        (fun e => !event_is_revision_root e) ↔
      p ∈ cache ∧ event_is_patch_set_root p = true ∧ event_is_revision_root p = false ∧
      proposal_coordinates_match coords p = true := by
  rw [List.mem_filter]
  unfold get_proposals_and_revisions_from_cache
  rw [mem_sort_by_created_at, List.mem_filter]
  constructor
  · rintro ⟨⟨hc, hb⟩, hrev⟩
    rw [Bool.and_eq_true, Bool.or_eq_true] at hb
    have hrev' : event_is_revision_root p = false := by
      cases hrv : event_is_revision_root p with
      | false => rfl
      | true => rw [hrv] at hrev; cases hrev
    refine ⟨hc, ?_, hrev', hb.2⟩
    rcases hb.1 with hroot | hrv2
    · exact hroot
    · rw [hrv2] at hrev'
      cases hrev'
  · rintro ⟨hc, hroot, hrev, hcoord⟩
    refine ⟨⟨hc, ?_⟩, by rw [hrev]; rfl⟩
    rw [Bool.and_eq_true, Bool.or_eq_true]
    exact ⟨Or.inl hroot, hcoord⟩

/-- Full characterisation of `get_open_proposals` under well-formed status tags and
distinct status timestamps: it returns a map whose entries are exactly the cached
matching non-revision roots whose latest status is open (or absent) and whose chain
assembles; every listed chain is parent-commit linked. -/
theorem get_open_proposals_characterized (cache : List NEvent) (coords : List Coordinate)
    (hwf : status_tags_wellformed cache = true)
    (hdist : distinct_status_created_at cache = true) :
    ∃ m, get_open_proposals cache coords = some m ∧
      (∀ (p : NEvent) (chain : List NEvent),
        ((p.id, p, chain) ∈ m ↔
          p ∈ cache ∧ event_is_patch_set_root p = true ∧
          event_is_revision_root p = false ∧
          proposal_coordinates_match coords p = true ∧
          latest_status_open cache p.id = true ∧
          get_most_recent_patch_with_ancestors
            (get_all_proposal_patch_events_from_cache cache p.id) = some chain)) ∧
      (∀ (p : NEvent) (chain : List NEvent), (p.id, p, chain) ∈ m →
        chain_linked chain = true) := by
  have hsdwf : ∀ e ∈ (sort_by_created_at (cache.filter (status_filter_matches
        (((get_proposals_and_revisions_from_cache cache coords).filter
          (fun e => !event_is_revision_root e)).map NEvent.id)))).reverse,
      status_kinds.contains e.kind = true → ∀ t ∈ e.tags, 2 ≤ t.length := by
    intro e he
    rw [List.mem_reverse, mem_sort_by_created_at, List.mem_filter] at he
    exact wellformed_lengths cache hwf e he.1
  have htotal : ∀ q ∈ (get_proposals_and_revisions_from_cache cache coords).filter
      (fun e => !event_is_revision_root e),
      (proposal_status ((sort_by_created_at (cache.filter (status_filter_matches
        (((get_proposals_and_revisions_from_cache cache coords).filter
          (fun e => !event_is_revision_root e)).map NEvent.id)))).reverse) q.id).isSome =
        true := by
    intro q hq
    rw [proposal_status_eq q.id _ hsdwf]
    rfl
  obtain ⟨m, hm, hmem⟩ := open_proposals_loop_spec cache
    ((sort_by_created_at (cache.filter (status_filter_matches
      (((get_proposals_and_revisions_from_cache cache coords).filter
        (fun e => !event_is_revision_root e)).map NEvent.id)))).reverse)
    ((get_proposals_and_revisions_from_cache cache coords).filter
      (fun e => !event_is_revision_root e))
    htotal
  have hgo : get_open_proposals cache coords = some m := by
    unfold get_open_proposals
    exact hm
  refine ⟨m, hgo, ?_, ?_⟩
  · intro p chain
    rw [hmem (p.id, p, chain)]
    constructor
    · rintro ⟨q, hq, hqs, ch, hch, hxq⟩
      rw [Prod.mk.injEq, Prod.mk.injEq] at hxq
      obtain ⟨-, hpq, hchq⟩ := hxq
      subst hpq
      subst hchq
      obtain ⟨hc, hroot, hrev, hcoord⟩ := (mem_open_proposal_candidates cache coords p).mp hq
      refine ⟨hc, hroot, hrev, hcoord, ?_, hch⟩
      have hpid : p.id ∈ ((get_proposals_and_revisions_from_cache cache coords).filter
          (fun e => !event_is_revision_root e)).map NEvent.id :=
        List.mem_map_of_mem NEvent.id hq
      rw [proposal_status_eq p.id _ hsdwf] at hqs
      injection hqs with hqs2
      exact (status_decision cache _ p.id hwf hdist hpid).mp hqs2
    · rintro ⟨hc, hroot, hrev, hcoord, hopen, hchain⟩
      have hq : p ∈ (get_proposals_and_revisions_from_cache cache coords).filter
          (fun e => !event_is_revision_root e) :=
        (mem_open_proposal_candidates cache coords p).mpr ⟨hc, hroot, hrev, hcoord⟩
      refine ⟨p, hq, ?_, chain, hchain, rfl⟩
      have hpid : p.id ∈ ((get_proposals_and_revisions_from_cache cache coords).filter
          (fun e => !event_is_revision_root e)).map NEvent.id :=
        List.mem_map_of_mem NEvent.id hq
      rw [proposal_status_eq p.id _ hsdwf]
      exact congrArg some ((status_decision cache _ p.id hwf hdist hpid).mpr hopen)
  · intro p chain hin
    rw [hmem (p.id, p, chain)] at hin
    obtain ⟨q, hq, hqs, ch, hch, hxq⟩ := hin
    rw [Prod.mk.injEq, Prod.mk.injEq] at hxq
    obtain ⟨-, hpq, hchq⟩ := hxq
    subst hpq
    subst hchq
    unfold get_most_recent_patch_with_ancestors at hch
    cases htip : find_tip_patch (get_all_proposal_patch_events_from_cache cache p.id) with
    | none => rw [htip] at hch; cases hch
    | some tip =>
      rw [htip] at hch
      exact (walk_chain_spec _ _ tip chain hch).2

/-- With well-length status tags, `get_open_proposals` cannot panic: it returns some
map on every cache state. -/
theorem open_proposals_total (cache : List NEvent) (coords : List Coordinate)
    (h : status_tag_lengths_ok cache = true) :
    ∃ m, get_open_proposals cache coords = some m := by
  have hsdwf : ∀ e ∈ (sort_by_created_at (cache.filter (status_filter_matches
        (((get_proposals_and_revisions_from_cache cache coords).filter
          (fun e => !event_is_revision_root e)).map NEvent.id)))).reverse,
      status_kinds.contains e.kind = true → ∀ t ∈ e.tags, 2 ≤ t.length := by
    intro e he
    rw [List.mem_reverse, mem_sort_by_created_at, List.mem_filter] at he
    exact lengths_ok_forall cache h e he.1
  have htotal : ∀ q ∈ (get_proposals_and_revisions_from_cache cache coords).filter
      (fun e => !event_is_revision_root e),
      (proposal_status ((sort_by_created_at (cache.filter (status_filter_matches
        (((get_proposals_and_revisions_from_cache cache coords).filter
          (fun e => !event_is_revision_root e)).map NEvent.id)))).reverse) q.id).isSome =
        true := by
    intro q hq
    rw [proposal_status_eq q.id _ hsdwf]
    rfl
  obtain ⟨m, hm, -⟩ := open_proposals_loop_spec cache
    ((sort_by_created_at (cache.filter (status_filter_matches
      (((get_proposals_and_revisions_from_cache cache coords).filter
        (fun e => !event_is_revision_root e)).map NEvent.id)))).reverse)
    ((get_proposals_and_revisions_from_cache cache coords).filter
      (fun e => !event_is_revision_root e))
    htotal
  refine ⟨m, ?_⟩
  unfold get_open_proposals
  exact hm

/-! ## Claim C10: the status-matching panic -/

/-- C10 as stated fails on the code: here is a cache state in which a Status event
carries a one-element tag, yet `get_open_proposals` returns normally (`some` map, no
panic) — the `any` over the tags short-circuits at the preceding matching `e` tag and
the short tag is never indexed. -/
theorem short_status_tag_without_panic :
    (c10_status.tags.any (fun t => decide (t.length < 2))) = true ∧
    get_open_proposals [c5_root, c5_patch, c10_status] [c5_coord] = some [] := by
  refine ⟨by decide, by decide⟩

/-- C10 amended: the status-matching step of `get_open_proposals` *can* panic — on a
cache whose status event's one-element tag is evaluated before a match is found, the
indexing is out of bounds — and it is total (returns some map on every cache state)
under the precondition that every tag of every status-kind event has at least two
elements. -/
theorem get_open_proposals_panic_amended :
    get_open_proposals [c5_root, c5_patch, c10_status2] [c5_coord] = none ∧
    ∀ (cache : List NEvent) (coords : List Coordinate),
      status_tag_lengths_ok cache = true →
      ∃ m, get_open_proposals cache coords = some m :=
  ⟨by decide, fun cache coords h => open_proposals_total cache coords h⟩

/-- Witness for the amended C10 on a short-tag-free cache. -/
theorem get_open_proposals_panic_amended_witness :
    ∃ m, get_open_proposals [c5_root, c5_patch] [c5_coord] = some m :=
  get_open_proposals_panic_amended.2 [c5_root, c5_patch] [c5_coord] (by decide)

/-! ## Claim C5: the open-proposal map -/

/-- C5: under well-formed status tags (§3: a Status is tagged with the proposal root
id) and distinct status timestamps, the map returned by `get_open_proposals` contains
an entry exactly for each cached PatchSetRoot event that (a) matches the repo
coordinates, (b) is not a revision-root, (c) has either no Status event targeting it
or Open as its latest Status by `created_at`, and (d) whose patch chain reconstructs
successfully; the entry's chain starts at the tip patch and follows parent-commit
links backward (every listed chain is parent-commit linked). -/
theorem get_open_proposals_entry_iff (cache : List NEvent) (coords : List Coordinate)
    (hwf : status_tags_wellformed cache = true)
    (hdist : distinct_status_created_at cache = true) :
    ∃ m, get_open_proposals cache coords = some m ∧
      (∀ (p : NEvent) (chain : List NEvent),
        ((p.id, p, chain) ∈ m ↔
          p ∈ cache ∧ event_is_patch_set_root p = true ∧
          event_is_revision_root p = false ∧
          proposal_coordinates_match coords p = true ∧
          latest_status_open cache p.id = true ∧
          get_most_recent_patch_with_ancestors
            (get_all_proposal_patch_events_from_cache cache p.id) = some chain)) ∧
      (∀ (p : NEvent) (chain : List NEvent), (p.id, p, chain) ∈ m →
        chain_linked chain = true) :=
  get_open_proposals_characterized cache coords hwf hdist

/-- Witness for C5 at a two-patch proposal with no status events. -/
theorem get_open_proposals_entry_iff_witness :
    ∃ m, get_open_proposals [c5_root, c5_patch] [c5_coord] = some m ∧
      (∀ (p : NEvent) (chain : List NEvent),
        ((p.id, p, chain) ∈ m ↔
          p ∈ [c5_root, c5_patch] ∧ event_is_patch_set_root p = true ∧
          event_is_revision_root p = false ∧
          proposal_coordinates_match [c5_coord] p = true ∧
          latest_status_open [c5_root, c5_patch] p.id = true ∧
          get_most_recent_patch_with_ancestors
            (get_all_proposal_patch_events_from_cache [c5_root, c5_patch] p.id) =
              some chain)) ∧
      (∀ (p : NEvent) (chain : List NEvent), (p.id, p, chain) ∈ m →
        chain_linked chain = true) :=
  get_open_proposals_entry_iff [c5_root, c5_patch] [c5_coord] (by decide) (by decide)

/-! ## Claim C8: silent skip during listing, error during push -/

/-- C8: a proposal whose patch events cannot be assembled into a consistent chain is
silently omitted from the map during listing — no error is raised (the map is still
`some`) and every other listable proposal is still returned — whereas the same
inconsistency during a push surfaces as the error that aborts the operation
(`cannot get most recent patch for proposal`, `push.rs` lines 80–82). -/
theorem proposal_inconsistency_listing_vs_push (cache : List NEvent)
    (coords : List Coordinate) (B : NEvent)
    (hwf : status_tags_wellformed cache = true)
    (hdist : distinct_status_created_at cache = true)
    (hBfail : get_most_recent_patch_with_ancestors
      (get_all_proposal_patch_events_from_cache cache B.id) = none) :
    ∃ m, get_open_proposals cache coords = some m ∧
      (∀ chain : List NEvent, (B.id, B, chain) ∉ m) ∧
      (∀ (q : NEvent) (chain : List NEvent),
        q ∈ cache → event_is_patch_set_root q = true →
        event_is_revision_root q = false →
        proposal_coordinates_match coords q = true →
        latest_status_open cache q.id = true →
        get_most_recent_patch_with_ancestors
          (get_all_proposal_patch_events_from_cache cache q.id) = some chain →
        (q.id, q, chain) ∈ m) ∧
      push_proposal_chain (get_all_proposal_patch_events_from_cache cache B.id) =
        Except.error "cannot get most recent patch for proposal" := by
  obtain ⟨m, hm, hiff, -⟩ := get_open_proposals_characterized cache coords hwf hdist
  refine ⟨m, hm, ?_, ?_, ?_⟩
  · intro chain hcon
    obtain ⟨-, -, -, -, -, hch⟩ := (hiff B chain).mp hcon
    rw [hBfail] at hch
    cases hch
  · intro q chain hc hroot hrev hcoord hopen hch
    exact (hiff q chain).mpr ⟨hc, hroot, hrev, hcoord, hopen, hch⟩
  · unfold push_proposal_chain
    rw [hBfail]

/-- Witness for C8: a broken root (no commit tag) next to a well-formed root. -/
theorem proposal_inconsistency_listing_vs_push_witness :
    ∃ m, get_open_proposals [c8_broken_root, c8_good_root] [c5_coord] = some m ∧
      (∀ chain : List NEvent, (c8_broken_root.id, c8_broken_root, chain) ∉ m) ∧
      (∀ (q : NEvent) (chain : List NEvent),
        q ∈ [c8_broken_root, c8_good_root] → event_is_patch_set_root q = true →
        event_is_revision_root q = false →
        proposal_coordinates_match [c5_coord] q = true →
        latest_status_open [c8_broken_root, c8_good_root] q.id = true →
        get_most_recent_patch_with_ancestors
          (get_all_proposal_patch_events_from_cache [c8_broken_root, c8_good_root] q.id) =
            some chain →
        (q.id, q, chain) ∈ m) ∧
      push_proposal_chain (get_all_proposal_patch_events_from_cache
          [c8_broken_root, c8_good_root] c8_broken_root.id) =
        Except.error "cannot get most recent patch for proposal" :=
  proposal_inconsistency_listing_vs_push [c8_broken_root, c8_good_root] [c5_coord]
    c8_broken_root (by decide) (by decide) (by decide)

end Ngit
